import Mathlib

set_option maxHeartbeats 1000000

/-!
Shallow embedding of the `FelipeABG/json-parser` Rust sources
(`src/error.rs`, `src/ast.rs`, `src/token.rs`, `src/parser.rs`)
and proofs about the scanner (`TokenStream`) and the parser.

Modelling conventions:
* The source text is modelled as a `List Char`.  The Rust code indexes the
  byte buffer of the source string and casts each byte to `char`
  (`self.source.as_bytes()[self.pointer] as char`); each list element here
  stands for one byte of the buffer.  All inputs appearing in the claims are
  ASCII, where the two views coincide exactly.
* Rust's `&mut self` methods become state-passing functions: `next` returns
  the result together with the updated stream, including on the error paths
  (the Rust code may advance the cursor before returning `Err`).
* `f64` numeric token values are modelled by the exact natural value of the
  scanned digit run (the scanner's number grammar is unsigned digit runs
  only); IEEE rounding is not modelled, and every numeric value occurring in
  the claims is exactly representable.
* The `from_utf8` re-decoding steps of `tokenize_number`, `tokenize_literal`
  and `tokenize_string` cannot fail in the byte-list model (the Rust slices
  are delimited by ASCII bytes inside an already valid `&str`, so `from_utf8`
  always succeeds there); they are modelled by direct slicing.
-/

namespace JsonParser

/-- Error kinds, from `src/error.rs` (`ParseErrorKind`). -/
inductive ParseErrorKind where
  | InvalidToken
  | InvalidString
  | InvalidNumber
  | InvalidValue
  | UnterminatedString
  | EndOfStream
  | NotAPrimitive
  deriving DecidableEq, Repr

/-- Parse error carrying the 1-based source line, from `src/error.rs` (`ParseError`). -/
structure ParseError where
  line : Nat
  kind : ParseErrorKind
  deriving DecidableEq, Repr

/-- Token kinds, from `src/token.rs` (`TokenKind`).  `Number` carries the exact
value of the digit run (see the module comment on the `f64` model). -/
inductive TokenKind where
  | LeftCurlyBracket
  | RightCurlyBracket
  | LeftSquareBracket
  | RightSquareBracket
  | Comma
  | Colon
  | String (s : List Char)
  | Number (n : Nat)
  | True
  | False
  | Null
  deriving DecidableEq, Repr

/-- A scanned token, from `src/token.rs` (`Token`). -/
structure Token where
  kind : TokenKind
  line : Nat
  deriving DecidableEq, Repr

/-- Primitive JSON values, from `src/ast.rs` (`Primitive`). -/
inductive Primitive where
  | Number (n : Nat)
  | String (s : List Char)
  | Boolean (b : Bool)
  | Null
  deriving DecidableEq, Repr

mutual

/-- The AST root type, from `src/ast.rs` (`JsonValue`). -/
inductive JsonValue where
  | Primitive (p : Primitive)
  | Container (c : Container)

/-- Composite JSON values, from `src/ast.rs` (`Container`).  Note that the
parser in `src/parser.rs` never constructs these. -/
inductive Container where
  | Object (members : List Member)
  | Array (values : List JsonValue)

/-- An object entry, from `src/ast.rs` (`Member`). -/
inductive Member where
  | mk (name : List Char) (value : JsonValue)

end

/-- The scanner state, from `src/token.rs` (`TokenStream`). -/
structure TokenStream where
  line : Nat
  pointer : Nat
  source : List Char
  deriving DecidableEq, Repr

namespace TokenStream

/-- `TokenStream::new`. -/
def new (source : List Char) : TokenStream :=
  { line := 1, pointer := 0, source := source }

/-- `TokenStream::end_of_stream`: `!(self.source.len() > self.pointer)`. -/
def end_of_stream (ts : TokenStream) : Bool :=
  ! decide (ts.source.length > ts.pointer)

/-- `TokenStream::char_at_pointer`.  The Rust code indexes the byte buffer
unconditionally (it would panic out of bounds); every call site is guarded by
an `end_of_stream` check, so an arbitrary default is observationally
irrelevant. -/
def char_at_pointer (ts : TokenStream) : Char :=
  ts.source.getD ts.pointer default

/-- `TokenStream::single_token`. -/
def single_token (ts : TokenStream) (kind : TokenKind) :
    Except ParseError Token × TokenStream :=
  (Except.ok { kind := kind, line := ts.line }, { ts with pointer := ts.pointer + 1 })

/-- The cursor position at which a maximal run of characters satisfying `pred`
starting at `p` ends; this models the identical `while !self.end_of_stream()
&& self.char_at_pointer().is_ascii_...()` advance loops of `tokenize_number`
and `tokenize_literal`. -/
def run_end (pred : Char → Bool) (source : List Char) (p : Nat) : Nat :=
  if h : p < source.length ∧ pred (source.getD p default) = true then
    run_end pred source (p + 1)
  else
    p
termination_by source.length - p
decreasing_by
  exact Nat.sub_succ_lt_self _ _ h.1

/-- The scan loop of `TokenStream::tokenize_string` together with its two
`UnterminatedString` exits and its success exit: starting from the cursor
(just past the opening quote), scan for the closing quote, failing on a
newline or on end of input; on success the token text is the source slice
from `start` through the closing quote inclusive. -/
def string_scan (ts : TokenStream) (start : Nat) : Except ParseError Token × TokenStream :=
  if h : ts.pointer < ts.source.length then
    if ts.char_at_pointer = '"' then
      (Except.ok { kind := TokenKind.String ((ts.source.drop start).take (ts.pointer + 1 - start)),
                   line := ts.line },
       { ts with pointer := ts.pointer + 1 })
    else if ts.char_at_pointer = '\n' then
      (Except.error { line := ts.line, kind := ParseErrorKind.UnterminatedString }, ts)
    else
      string_scan { ts with pointer := ts.pointer + 1 } start
  else
    (Except.error { line := ts.line, kind := ParseErrorKind.UnterminatedString }, ts)
termination_by ts.source.length - ts.pointer
decreasing_by
  show ts.source.length - (ts.pointer + 1) < ts.source.length - ts.pointer
  omega

/-- `TokenStream::tokenize_string`: remember `start`, step past the opening
quote and run the scan loop. -/
def tokenize_string (ts : TokenStream) : Except ParseError Token × TokenStream :=
  string_scan { ts with pointer := ts.pointer + 1 } ts.pointer

/-- Decimal value of a digit run. -/
def natOfDigits (s : List Char) : Nat :=
  s.foldl (fun acc c => 10 * acc + (c.toNat - '0'.toNat)) 0

/-- Model of `str::parse::<f64>()` as invoked by `tokenize_number`:
`f64`'s `FromStr` succeeds on every nonempty ASCII digit run (and on no other
string that `tokenize_number` can produce — the run is harvested with
`is_ascii_digit`); the resulting value is modelled exactly (see the module
comment). -/
def parse_f64 (s : List Char) : Option Nat :=
  if !s.isEmpty && s.all Char.isDigit then some (natOfDigits s) else none

/-- `TokenStream::tokenize_number`. -/
def tokenize_number (ts : TokenStream) : Except ParseError Token × TokenStream :=
  let start := ts.pointer
  let p := run_end Char.isDigit ts.source start
  let number_lexeme := (ts.source.drop start).take (p - start)
  match parse_f64 number_lexeme with
  | some n =>
      (Except.ok { kind := TokenKind.Number n, line := ts.line }, { ts with pointer := p })
  | none =>
      (Except.error { line := ts.line, kind := ParseErrorKind.InvalidNumber },
       { ts with pointer := p })

/-- `TokenStream::tokenize_literal`. -/
def tokenize_literal (ts : TokenStream) : Except ParseError Token × TokenStream :=
  let start := ts.pointer
  let p := run_end Char.isAlpha ts.source start
  let bool_lexeme := (ts.source.drop start).take (p - start)
  if bool_lexeme = ['t', 'r', 'u', 'e'] then
    (Except.ok { kind := TokenKind.True, line := ts.line }, { ts with pointer := p })
  else if bool_lexeme = ['f', 'a', 'l', 's', 'e'] then
    (Except.ok { kind := TokenKind.False, line := ts.line }, { ts with pointer := p })
  else if bool_lexeme = ['n', 'u', 'l', 'l'] then
    (Except.ok { kind := TokenKind.Null, line := ts.line }, { ts with pointer := p })
  else
    (Except.error { line := ts.line, kind := ParseErrorKind.InvalidValue },
     { ts with pointer := p })

/-- `TokenStream::next`: dispatch on the character under the cursor, in the
order of the Rust `match` arms.  `Char.isDigit` and `Char.isAlpha` are exactly
`is_ascii_digit` and `is_ascii_alphabetic`. -/
def next (ts : TokenStream) : Except ParseError Token × TokenStream :=
  if h : ts.end_of_stream then
    (Except.error { line := ts.line, kind := ParseErrorKind.EndOfStream }, ts)
  else
    if ts.char_at_pointer = '{' then ts.single_token TokenKind.LeftCurlyBracket
    else if ts.char_at_pointer = '}' then ts.single_token TokenKind.RightCurlyBracket
    else if ts.char_at_pointer = '[' then ts.single_token TokenKind.LeftSquareBracket
    else if ts.char_at_pointer = ']' then ts.single_token TokenKind.RightSquareBracket
    else if ts.char_at_pointer = ',' then ts.single_token TokenKind.Comma
    else if ts.char_at_pointer = ':' then ts.single_token TokenKind.Colon
    else if ts.char_at_pointer = '"' then ts.tokenize_string
    else if ts.char_at_pointer = ' ' then
      next { ts with pointer := ts.pointer + 1 }
    else if (ts.char_at_pointer).isDigit then ts.tokenize_number
    else if (ts.char_at_pointer).isAlpha then ts.tokenize_literal
    else if ts.char_at_pointer = '\n' ∨ ts.char_at_pointer = '\r' ∨ ts.char_at_pointer = '\t' then
      next { ts with pointer := ts.pointer + 1, line := ts.line + 1 }
    else
      (Except.error { line := ts.line, kind := ParseErrorKind.InvalidToken }, ts)
termination_by ts.source.length - ts.pointer
decreasing_by
  all_goals simp [end_of_stream] at h
  all_goals show ts.source.length - (ts.pointer + 1) < ts.source.length - ts.pointer
  all_goals omega

/-- `TokenStream::peek`: save the cursor and line, run `next`, restore. -/
def peek (ts : TokenStream) : Except ParseError Token × TokenStream :=
  let previous_pointer := ts.pointer
  let previous_line := ts.line
  let result := ts.next
  (result.1, { result.2 with pointer := previous_pointer, line := previous_line })

/-!
Support lemmas about the scanner.  The lemmas up to `next_ok` are placed
before the parser definitions because `Parser.parse` and `tokens` are
recursive on the cursor-progress measure, and their `decreasing_by` proofs
need the fact that a successful `next` strictly advances the cursor.
-/

theorem run_end_ge (pred : Char → Bool) (source : List Char) (p : Nat) :
    p ≤ run_end pred source p := by
  unfold run_end
  split
  · exact Nat.le_trans (Nat.le_succ p) (run_end_ge pred source (p + 1))
  · exact Nat.le_refl p
termination_by source.length - p
decreasing_by
  rename_i h
  exact Nat.sub_succ_lt_self _ _ h.1

theorem run_end_le (pred : Char → Bool) (source : List Char) (p : Nat)
    (hp : p ≤ source.length) : run_end pred source p ≤ source.length := by
  unfold run_end
  split
  · rename_i h
    exact run_end_le pred source (p + 1) h.1
  · exact hp
termination_by source.length - p
decreasing_by
  rename_i h
  exact Nat.sub_succ_lt_self _ _ h.1

theorem run_end_pos (pred : Char → Bool) (source : List Char) (p : Nat)
    (h1 : p < source.length) (h2 : pred (source.getD p default) = true) :
    p < run_end pred source p := by
  rw [run_end, dif_pos ⟨h1, h2⟩]
  exact Nat.lt_of_lt_of_le (Nat.lt_succ_self p) (run_end_ge pred source (p + 1))

theorem run_end_stop (pred : Char → Bool) (source : List Char) (p : Nat)
    (h : run_end pred source p < source.length) :
    pred (source.getD (run_end pred source p) default) = false := by
  by_cases hc : p < source.length ∧ pred (source.getD p default) = true
  · rw [run_end, dif_pos hc] at h ⊢
    exact run_end_stop pred source (p + 1) h
  · rw [run_end, dif_neg hc] at h ⊢
    rcases Bool.eq_false_or_eq_true (pred (source.getD p default)) with ht | hf
    · exact absurd ⟨h, ht⟩ hc
    · exact hf
termination_by source.length - p
decreasing_by
  exact Nat.sub_succ_lt_self _ _ hc.1

theorem run_end_all (pred : Char → Bool) (source : List Char) (p i : Nat)
    (h1 : p ≤ i) (h2 : i < run_end pred source p) :
    pred (source.getD i default) = true := by
  by_cases hc : p < source.length ∧ pred (source.getD p default) = true
  · rw [run_end, dif_pos hc] at h2
    rcases Nat.eq_or_lt_of_le h1 with rfl | hlt
    · exact hc.2
    · exact run_end_all pred source (p + 1) i hlt h2
  · rw [run_end, dif_neg hc] at h2
    exact absurd (Nat.lt_of_le_of_lt h1 h2) (Nat.lt_irrefl p)
termination_by source.length - p
decreasing_by
  exact Nat.sub_succ_lt_self _ _ hc.1

theorem run_end_extend (pred : Char → Bool) (source ws : List Char) (p : Nat)
    (hp : p ≤ source.length) (hws : ∀ c ∈ ws, pred c = false) :
    run_end pred (source ++ ws) p = run_end pred source p := by
  rcases Nat.eq_or_lt_of_le hp with heq | hlt
  · have hsrc : ¬(p < source.length ∧ pred (source.getD p default) = true) := by
      intro hc
      omega
    have hext : ¬(p < (source ++ ws).length ∧
        pred ((source ++ ws).getD p default) = true) := by
      intro hc
      cases hw : ws with
      | nil =>
        rw [hw] at hc
        simp at hc
        omega
      | cons c cs =>
        have hg : (source ++ ws).getD p default = c := by
          rw [List.getD_append_right source ws default p (Nat.le_of_eq heq.symm)]
          simp [hw, heq]
        rw [hg, hws c (by rw [hw]; exact List.mem_cons_self c cs)] at hc
        exact Bool.false_ne_true hc.2
    conv_lhs => rw [run_end, dif_neg hext]
    conv_rhs => rw [run_end, dif_neg hsrc]
  · have hg : (source ++ ws).getD p default = source.getD p default :=
      List.getD_append source ws default p hlt
    by_cases hc : p < source.length ∧ pred (source.getD p default) = true
    · have hc' : p < (source ++ ws).length ∧ pred ((source ++ ws).getD p default) = true := by
        constructor
        · simp
          omega
        · rw [hg]; exact hc.2
      conv_lhs => rw [run_end, dif_pos hc']
      conv_rhs => rw [run_end, dif_pos hc]
      exact run_end_extend pred source ws (p + 1) hlt hws
    · have hc' : ¬(p < (source ++ ws).length ∧ pred ((source ++ ws).getD p default) = true) := by
        intro hx
        rw [hg] at hx
        exact hc ⟨hlt, hx.2⟩
      conv_lhs => rw [run_end, dif_neg hc']
      conv_rhs => rw [run_end, dif_neg hc]
termination_by source.length - p
decreasing_by
  exact Nat.sub_succ_lt_self _ _ hc.1

theorem string_scan_src (ts : TokenStream) (start : Nat) :
    (ts.string_scan start).2.source = ts.source := by
  unfold string_scan
  split
  · split
    · rfl
    · split
      · rfl
      · exact string_scan_src { ts with pointer := ts.pointer + 1 } start
  · rfl
termination_by ts.source.length - ts.pointer
decreasing_by
  rename_i h _ _
  show ts.source.length - (ts.pointer + 1) < ts.source.length - ts.pointer
  omega

theorem string_scan_line (ts : TokenStream) (start : Nat) :
    (ts.string_scan start).2.line = ts.line := by
  unfold string_scan
  split
  · split
    · rfl
    · split
      · rfl
      · exact string_scan_line { ts with pointer := ts.pointer + 1 } start
  · rfl
termination_by ts.source.length - ts.pointer
decreasing_by
  rename_i h _ _
  show ts.source.length - (ts.pointer + 1) < ts.source.length - ts.pointer
  omega

theorem string_scan_ptr_le (ts : TokenStream) (start : Nat)
    (hp : ts.pointer ≤ ts.source.length) :
    (ts.string_scan start).2.pointer ≤ ts.source.length := by
  unfold string_scan
  split
  · split
    · rename_i h _
      exact h
    · split
      · exact hp
      · rename_i h _ _
        exact string_scan_ptr_le { ts with pointer := ts.pointer + 1 } start h
  · exact hp
termination_by ts.source.length - ts.pointer
decreasing_by
  rename_i h _ _
  show ts.source.length - (ts.pointer + 1) < ts.source.length - ts.pointer
  omega

theorem string_scan_ok (ts : TokenStream) (start : Nat) (tok : Token) (ts₂ : TokenStream)
    (h : ts.string_scan start = (Except.ok tok, ts₂)) :
    ∃ q, ts.pointer ≤ q ∧ q < ts.source.length ∧ ts.source.getD q default = '"' ∧
      tok = { kind := TokenKind.String ((ts.source.drop start).take (q + 1 - start)),
              line := ts.line } ∧
      ts₂ = { ts with pointer := q + 1 } := by
  unfold string_scan at h
  split at h
  · split at h
    · rename_i hlt hq
      injection h with h1 h2
      injection h1 with h1
      exact ⟨ts.pointer, Nat.le_refl _, hlt, hq, h1.symm, h2.symm⟩
    · split at h
      · simp at h
      · rename_i hlt hq hn
        obtain ⟨q, hq1, hq2, hq3, hq4, hq5⟩ :=
          string_scan_ok { ts with pointer := ts.pointer + 1 } start tok ts₂ h
        exact ⟨q, Nat.le_trans (Nat.le_succ _) hq1, hq2, hq3, hq4, hq5⟩
  · simp at h
termination_by ts.source.length - ts.pointer
decreasing_by
  rename_i h _ _
  show ts.source.length - (ts.pointer + 1) < ts.source.length - ts.pointer
  omega

theorem tokenize_number_state (ts : TokenStream) :
    (ts.tokenize_number).2 =
      { ts with pointer := run_end Char.isDigit ts.source ts.pointer } := by
  unfold tokenize_number
  dsimp only
  split <;> rfl

theorem tokenize_literal_state (ts : TokenStream) :
    (ts.tokenize_literal).2 =
      { ts with pointer := run_end Char.isAlpha ts.source ts.pointer } := by
  unfold tokenize_literal
  dsimp only
  split <;> (try split) <;> (try split) <;> rfl

theorem parse_f64_some (s : List Char) (n : Nat) (h : parse_f64 s = some n) :
    s ≠ [] ∧ s.all Char.isDigit = true ∧ n = natOfDigits s := by
  unfold parse_f64 at h
  split at h
  · rename_i hc
    rw [Bool.and_eq_true] at hc
    injection h with h
    refine ⟨?_, hc.2, h.symm⟩
    intro hs
    subst hs
    simp at hc
  · simp at h

theorem tokenize_number_ok (ts : TokenStream) (tok : Token) (ts₂ : TokenStream)
    (h : ts.tokenize_number = (Except.ok tok, ts₂)) :
    ts₂.source = ts.source ∧ ts.pointer < ts₂.pointer ∧ tok.line = ts.line ∧
      ts₂.line = ts.line ∧ ∃ n, tok.kind = TokenKind.Number n := by
  unfold tokenize_number at h
  dsimp only at h
  split at h
  · rename_i n hv
    obtain ⟨hne, _, _⟩ := parse_f64_some _ n hv
    have hlen : ((ts.source.drop ts.pointer).take
        (run_end Char.isDigit ts.source ts.pointer - ts.pointer)).length ≠ 0 :=
      fun hz => hne (List.eq_nil_of_length_eq_zero hz)
    rw [List.length_take, List.length_drop] at hlen
    injection h with h1 h2
    injection h1 with h1
    subst h1
    rw [← h2]
    refine ⟨rfl, ?_, rfl, rfl, n, rfl⟩
    show ts.pointer < run_end Char.isDigit ts.source ts.pointer
    rcases Nat.lt_or_ge ts.pointer (run_end Char.isDigit ts.source ts.pointer) with hlt | hge
    · exact hlt
    · exfalso
      apply hlen
      simp
      omega
  · simp at h

theorem tokenize_literal_ok (ts : TokenStream) (tok : Token) (ts₂ : TokenStream)
    (h : ts.tokenize_literal = (Except.ok tok, ts₂)) :
    ts₂.source = ts.source ∧ ts.pointer < ts₂.pointer ∧ tok.line = ts.line ∧
      ts₂.line = ts.line := by
  have key : ∀ len : Nat, ((ts.source.drop ts.pointer).take
      (run_end Char.isAlpha ts.source ts.pointer - ts.pointer)).length = len → len ≠ 0 →
      ts.pointer < run_end Char.isAlpha ts.source ts.pointer := by
    intro len hlen hnz
    rw [List.length_take, List.length_drop] at hlen
    rcases Nat.lt_or_ge ts.pointer (run_end Char.isAlpha ts.source ts.pointer) with hlt | hge
    · exact hlt
    · exfalso
      apply hnz
      rw [← hlen]
      simp
      omega
  unfold tokenize_literal at h
  dsimp only at h
  split at h
  · rename_i hlex
    injection h with h1 h2
    injection h1 with h1
    subst h1
    rw [← h2]
    exact ⟨rfl, key _ (by rw [hlex]) (by simp), rfl, rfl⟩
  · split at h
    · rename_i hlex
      injection h with h1 h2
      injection h1 with h1
      subst h1
      rw [← h2]
      exact ⟨rfl, key _ (by rw [hlex]) (by simp), rfl, rfl⟩
    · split at h
      · rename_i hlex
        injection h with h1 h2
        injection h1 with h1
        subst h1
        rw [← h2]
        exact ⟨rfl, key _ (by rw [hlex]) (by simp), rfl, rfl⟩
      · simp at h

theorem single_token_ok (ts : TokenStream) (k : TokenKind) (tok : Token) (ts₂ : TokenStream)
    (h : ts.single_token k = (Except.ok tok, ts₂)) :
    ts₂.source = ts.source ∧ ts.pointer < ts₂.pointer ∧ tok.line = ts.line ∧
      ts₂.line = ts.line := by
  unfold single_token at h
  injection h with h1 h2
  injection h1 with h1
  subst h1
  rw [← h2]
  exact ⟨rfl, Nat.lt_succ_self _, rfl, rfl⟩

theorem tokenize_string_ok (ts : TokenStream) (tok : Token) (ts₂ : TokenStream)
    (h : ts.tokenize_string = (Except.ok tok, ts₂)) :
    ts₂.source = ts.source ∧ ts.pointer < ts₂.pointer ∧ tok.line = ts.line ∧
      ts₂.line = ts.line := by
  unfold tokenize_string at h
  obtain ⟨q, hq1, hq2, hq3, hq4, hq5⟩ := string_scan_ok _ _ _ _ h
  subst hq5
  subst hq4
  exact ⟨rfl, by simp at hq1 ⊢; omega, rfl, rfl⟩

theorem not_eos_lt (ts : TokenStream) (h : ¬ts.end_of_stream = true) :
    ts.pointer < ts.source.length := by
  simp [end_of_stream] at h
  exact h

/-- A successful `next` preserves the source, strictly advances the cursor,
reports a line at least the stream's line before the call, and leaves the
stream's line equal to the token's line. -/
theorem next_ok (ts : TokenStream) (tok : Token) (ts₂ : TokenStream)
    (h : ts.next = (Except.ok tok, ts₂)) :
    ts₂.source = ts.source ∧ ts.pointer < ts₂.pointer ∧ ts.line ≤ tok.line ∧
      tok.line = ts₂.line := by
  rw [next.eq_def] at h
  by_cases heos : ts.end_of_stream = true
  · rw [dif_pos heos] at h
    exact absurd h (by simp)
  · rw [dif_neg heos] at h
    by_cases h1 : ts.char_at_pointer = '{'
    · rw [if_pos h1] at h
      obtain ⟨a, b, c, d⟩ := single_token_ok _ _ _ _ h
      exact ⟨a, b, Nat.le_of_eq c.symm, c.trans d.symm⟩
    · rw [if_neg h1] at h
      by_cases h2 : ts.char_at_pointer = '}'
      · rw [if_pos h2] at h
        obtain ⟨a, b, c, d⟩ := single_token_ok _ _ _ _ h
        exact ⟨a, b, Nat.le_of_eq c.symm, c.trans d.symm⟩
      · rw [if_neg h2] at h
        by_cases h3 : ts.char_at_pointer = '['
        · rw [if_pos h3] at h
          obtain ⟨a, b, c, d⟩ := single_token_ok _ _ _ _ h
          exact ⟨a, b, Nat.le_of_eq c.symm, c.trans d.symm⟩
        · rw [if_neg h3] at h
          by_cases h4 : ts.char_at_pointer = ']'
          · rw [if_pos h4] at h
            obtain ⟨a, b, c, d⟩ := single_token_ok _ _ _ _ h
            exact ⟨a, b, Nat.le_of_eq c.symm, c.trans d.symm⟩
          · rw [if_neg h4] at h
            by_cases h5 : ts.char_at_pointer = ','
            · rw [if_pos h5] at h
              obtain ⟨a, b, c, d⟩ := single_token_ok _ _ _ _ h
              exact ⟨a, b, Nat.le_of_eq c.symm, c.trans d.symm⟩
            · rw [if_neg h5] at h
              by_cases h6 : ts.char_at_pointer = ':'
              · rw [if_pos h6] at h
                obtain ⟨a, b, c, d⟩ := single_token_ok _ _ _ _ h
                exact ⟨a, b, Nat.le_of_eq c.symm, c.trans d.symm⟩
              · rw [if_neg h6] at h
                by_cases h7 : ts.char_at_pointer = '"'
                · rw [if_pos h7] at h
                  obtain ⟨a, b, c, d⟩ := tokenize_string_ok _ _ _ h
                  exact ⟨a, b, Nat.le_of_eq c.symm, c.trans d.symm⟩
                · rw [if_neg h7] at h
                  by_cases h8 : ts.char_at_pointer = ' '
                  · rw [if_pos h8] at h
                    obtain ⟨a, b, c, d⟩ := next_ok { ts with pointer := ts.pointer + 1 } tok ts₂ h
                    exact ⟨a, Nat.lt_of_le_of_lt (Nat.le_succ _) b, c, d⟩
                  · rw [if_neg h8] at h
                    by_cases h9 : (ts.char_at_pointer).isDigit = true
                    · rw [if_pos h9] at h
                      obtain ⟨a, b, c, d, _⟩ := tokenize_number_ok _ _ _ h
                      exact ⟨a, b, Nat.le_of_eq c.symm, c.trans d.symm⟩
                    · rw [if_neg h9] at h
                      by_cases h10 : (ts.char_at_pointer).isAlpha = true
                      · rw [if_pos h10] at h
                        obtain ⟨a, b, c, d⟩ := tokenize_literal_ok _ _ _ h
                        exact ⟨a, b, Nat.le_of_eq c.symm, c.trans d.symm⟩
                      · rw [if_neg h10] at h
                        by_cases h11 : ts.char_at_pointer = '\n' ∨ ts.char_at_pointer = '\r' ∨ ts.char_at_pointer = '\t'
                        · rw [if_pos h11] at h
                          obtain ⟨a, b, c, d⟩ := next_ok { ts with pointer := ts.pointer + 1, line := ts.line + 1 } tok ts₂ h
                          exact ⟨a, Nat.lt_of_le_of_lt (Nat.le_succ _) b, Nat.le_trans (Nat.le_succ _) c, d⟩
                        · rw [if_neg h11] at h
                          exact absurd h (by simp)
termination_by ts.source.length - ts.pointer
decreasing_by
  all_goals have := not_eos_lt ts heos
  all_goals show ts.source.length - (ts.pointer + 1) < ts.source.length - ts.pointer
  all_goals omega

/-- `next` never changes the source buffer, on any path. -/
theorem next_src (ts : TokenStream) : (ts.next).2.source = ts.source := by
  rw [next.eq_def]
  by_cases heos : ts.end_of_stream = true
  · rw [dif_pos heos]
  · rw [dif_neg heos]
    by_cases h1 : ts.char_at_pointer = '{'
    · rw [if_pos h1]
      simp [single_token]
    · rw [if_neg h1]
      by_cases h2 : ts.char_at_pointer = '}'
      · rw [if_pos h2]
        simp [single_token]
      · rw [if_neg h2]
        by_cases h3 : ts.char_at_pointer = '['
        · rw [if_pos h3]
          simp [single_token]
        · rw [if_neg h3]
          by_cases h4 : ts.char_at_pointer = ']'
          · rw [if_pos h4]
            simp [single_token]
          · rw [if_neg h4]
            by_cases h5 : ts.char_at_pointer = ','
            · rw [if_pos h5]
              simp [single_token]
            · rw [if_neg h5]
              by_cases h6 : ts.char_at_pointer = ':'
              · rw [if_pos h6]
                simp [single_token]
              · rw [if_neg h6]
                by_cases h7 : ts.char_at_pointer = '"'
                · rw [if_pos h7]
                  simp [tokenize_string, string_scan_src]
                · rw [if_neg h7]
                  by_cases h8 : ts.char_at_pointer = ' '
                  · rw [if_pos h8]
                    exact next_src { ts with pointer := ts.pointer + 1 }
                  · rw [if_neg h8]
                    by_cases h9 : (ts.char_at_pointer).isDigit = true
                    · rw [if_pos h9]
                      rw [tokenize_number_state]
                    · rw [if_neg h9]
                      by_cases h10 : (ts.char_at_pointer).isAlpha = true
                      · rw [if_pos h10]
                        rw [tokenize_literal_state]
                      · rw [if_neg h10]
                        by_cases h11 : ts.char_at_pointer = '\n' ∨ ts.char_at_pointer = '\r' ∨ ts.char_at_pointer = '\t'
                        · rw [if_pos h11]
                          exact next_src { ts with pointer := ts.pointer + 1, line := ts.line + 1 }
                        · rw [if_neg h11]
termination_by ts.source.length - ts.pointer
decreasing_by
  all_goals have := not_eos_lt ts heos
  all_goals show ts.source.length - (ts.pointer + 1) < ts.source.length - ts.pointer
  all_goals omega

/-- The full token sequence obtained by repeatedly calling `next` until the
first error (harness definition used to state stream-level properties about
repeated successful `next` calls). -/
def tokens (ts : TokenStream) : List Token :=
  match hn : ts.next with
  | (Except.error _, _) => []
  | (Except.ok tok, ts₂) => tok :: tokens ts₂
termination_by ts.source.length - ts.pointer
decreasing_by
  obtain ⟨hsrc, hptr, _, _⟩ := next_ok ts tok ts₂ hn
  have hne : ¬ts.end_of_stream = true := by
    intro he
    rw [next.eq_def, dif_pos he] at hn
    exact absurd hn (by simp)
  have hlt := not_eos_lt ts hne
  rw [hsrc]
  omega

end TokenStream

/-- The characters the scanner consumes as whitespace (the `' '` arm and the
`'\n' | '\r' | '\t'` arm of `next`). -/
def isWsChar (c : Char) : Bool :=
  c = ' ' || c = '\n' || c = '\r' || c = '\t'

/-- The characters whose consumption as whitespace increments the line
counter (the `'\n' | '\r' | '\t'` arm of `next`). -/
def isNlChar (c : Char) : Bool :=
  c = '\n' || c = '\r' || c = '\t'

/-- Number of line-incrementing whitespace characters in a list. -/
def nlCount (l : List Char) : Nat :=
  l.countP isNlChar

namespace Parser

/-- `Parser::parse_primitive` from `src/parser.rs`: pull one token and map the
primitive token kinds to `Primitive` values; any other token kind fails with
`NotAPrimitive` at the token's line.  The Rust `Parser` struct is just the
wrapped stream, so the parser functions here take the stream directly; the
success path returns the updated stream (an error aborts the whole parse, so
the error paths drop the stream). -/
def parse_primitive (ts : TokenStream) : Except ParseError (Primitive × TokenStream) :=
  match ts.next with
  | (Except.error e, _) => Except.error e
  | (Except.ok tok, ts') =>
    match tok.kind with
    | TokenKind.String s => Except.ok (Primitive.String s, ts')
    | TokenKind.Number n => Except.ok (Primitive.Number n, ts')
    | TokenKind.True => Except.ok (Primitive.Boolean true, ts')
    | TokenKind.False => Except.ok (Primitive.Boolean false, ts')
    | TokenKind.Null => Except.ok (Primitive.Null, ts')
    | _ => Except.error { line := tok.line, kind := ParseErrorKind.NotAPrimitive }

theorem parse_primitive_ok (ts : TokenStream) (p : Primitive) (ts' : TokenStream)
    (h : parse_primitive ts = Except.ok (p, ts')) :
    ts'.source = ts.source ∧ ts.pointer < ts'.pointer := by
  unfold parse_primitive at h
  split at h
  · exact absurd h (by simp)
  · rename_i tok ts₂ heq
    split at h <;>
      first
      | (injection h with h
         injection h with hp hs
         rw [← hs]
         obtain ⟨a, b, _, _⟩ := TokenStream.next_ok _ _ _ heq
         exact ⟨a, b⟩)
      | exact absurd h (by simp)

/-- `Parser::parse` from `src/parser.rs`:
`while !self.ts.end_of_stream() { result.push(self.parse_primitive()?) }`. -/
def parse (ts : TokenStream) : Except ParseError (List Primitive) :=
  if heos : ts.end_of_stream then
    Except.ok []
  else
    match hpp : parse_primitive ts with
    | Except.error e => Except.error e
    | Except.ok (p, ts') =>
      match parse ts' with
      | Except.error e => Except.error e
      | Except.ok rest => Except.ok (p :: rest)
termination_by ts.source.length - ts.pointer
decreasing_by
  obtain ⟨hsrc, hptr⟩ := parse_primitive_ok ts p ts' hpp
  have hlt := TokenStream.not_eos_lt ts heos
  rw [hsrc]
  omega


theorem parse_nil (ts : TokenStream) (h : ts.end_of_stream = true) :
    parse ts = Except.ok [] := by
  rw [parse.eq_def, dif_pos h]

theorem parse_err (ts : TokenStream) (e : ParseError)
    (h1 : ts.end_of_stream = false) (h2 : parse_primitive ts = Except.error e) :
    parse ts = Except.error e := by
  rw [parse.eq_def, dif_neg (by simp [h1])]
  split
  · rename_i e' heq
    rw [h2] at heq
    injection heq with heq
    rw [heq]
  · rename_i p ts' heq
    rw [h2] at heq
    exact absurd heq (by simp)

theorem parse_cons (ts : TokenStream) (p : Primitive) (ts' : TokenStream)
    (h1 : ts.end_of_stream = false) (h2 : parse_primitive ts = Except.ok (p, ts')) :
    parse ts = (parse ts').map (fun rest => p :: rest) := by
  rw [parse.eq_def, dif_neg (by simp [h1])]
  split
  · rename_i e heq
    rw [h2] at heq
    exact absurd heq (by simp)
  · rename_i p1 ts1 heq
    rw [h2] at heq
    injection heq with heq
    injection heq with hp hts
    subst hp
    subst hts
    cases hres : parse ts' <;> simp [Except.map]

end Parser

namespace TokenStream

theorem tokens_err (ts : TokenStream) (e : ParseError) (s2 : TokenStream)
    (h : ts.next = (Except.error e, s2)) : tokens ts = [] := by
  rw [tokens.eq_def]
  split
  · rfl
  · rename_i tok ts₂ heq
    rw [h] at heq
    exact absurd heq (by simp)

theorem tokens_cons (ts : TokenStream) (tok : Token) (ts₂ : TokenStream)
    (h : ts.next = (Except.ok tok, ts₂)) : tokens ts = tok :: tokens ts₂ := by
  rw [tokens.eq_def]
  split
  · rename_i e s2 heq
    rw [h] at heq
    exact absurd heq (by simp)
  · rename_i tok1 ts1 heq
    rw [h] at heq
    injection heq with ha hb
    injection ha with ha
    rw [ha, hb]

theorem run_end_slice_all (pred : Char → Bool) (source : List Char) (p : Nat) :
    ((source.drop p).take (run_end pred source p - p)).all pred = true := by
  by_cases hc : p < source.length ∧ pred (source.getD p default) = true
  · obtain ⟨h1, h2⟩ := hc
    rw [run_end, dif_pos ⟨h1, h2⟩]
    have hge := run_end_ge pred source (p + 1)
    have hk : run_end pred source (p + 1) - p = (run_end pred source (p + 1) - (p + 1)) + 1 := by
      omega
    rw [hk, List.drop_eq_getElem_cons h1, List.take_succ_cons, List.all_cons]
    have hpe : pred source[p] = true := by
      rw [← List.getD_eq_getElem source default h1]
      exact h2
    rw [hpe, Bool.true_and]
    exact run_end_slice_all pred source (p + 1)
  · rw [run_end, dif_neg hc]
    simp
termination_by source.length - p
decreasing_by
  exact Nat.sub_succ_lt_self _ _ h1

end TokenStream


namespace TokenStream

theorem string_scan_err_no_quote (ts : TokenStream) (start : Nat)
    (h : ∀ i, ts.pointer ≤ i → i < ts.source.length → ts.source.getD i default ≠ '"') :
    (ts.string_scan start).1 =
      Except.error { line := ts.line, kind := ParseErrorKind.UnterminatedString } := by
  rw [string_scan.eq_def]
  by_cases hp : ts.pointer < ts.source.length
  · rw [dif_pos hp]
    have hq : ¬(ts.char_at_pointer = '"') := h ts.pointer (Nat.le_refl _) hp
    rw [if_neg hq]
    by_cases hn : ts.char_at_pointer = '\n'
    · rw [if_pos hn]
    · rw [if_neg hn]
      exact string_scan_err_no_quote { ts with pointer := ts.pointer + 1 } start
        (fun i h1 h2 => h i (Nat.le_trans (Nat.le_succ _) h1) h2)
  · rw [dif_neg hp]
termination_by ts.source.length - ts.pointer
decreasing_by
  show ts.source.length - (ts.pointer + 1) < ts.source.length - ts.pointer
  omega

theorem string_scan_err_newline (ts : TokenStream) (start j : Nat)
    (hj1 : ts.pointer ≤ j) (hj2 : j < ts.source.length)
    (hj3 : ts.source.getD j default = '\n')
    (hj4 : ∀ i, ts.pointer ≤ i → i < j → ts.source.getD i default ≠ '"') :
    (ts.string_scan start).1 =
      Except.error { line := ts.line, kind := ParseErrorKind.UnterminatedString } := by
  have hp : ts.pointer < ts.source.length := Nat.lt_of_le_of_lt hj1 hj2
  rw [string_scan.eq_def, dif_pos hp]
  rcases Nat.eq_or_lt_of_le hj1 with heq | hlt
  · have hn : ts.char_at_pointer = '\n' := by
      show ts.source.getD ts.pointer default = '\n'
      rw [heq]
      exact hj3
    have hq : ¬(ts.char_at_pointer = '"') := by
      rw [hn]
      decide
    rw [if_neg hq, if_pos hn]
  · have hq : ¬(ts.char_at_pointer = '"') := hj4 ts.pointer (Nat.le_refl _) hlt
    rw [if_neg hq]
    by_cases hn : ts.char_at_pointer = '\n'
    · rw [if_pos hn]
    · rw [if_neg hn]
      exact string_scan_err_newline { ts with pointer := ts.pointer + 1 } start j hlt hj2 hj3
        (fun i h1 h2 => hj4 i (Nat.le_trans (Nat.le_succ _) h1) h2)
termination_by ts.source.length - ts.pointer
decreasing_by
  show ts.source.length - (ts.pointer + 1) < ts.source.length - ts.pointer
  omega

end TokenStream

theorem headD_eq_getD {α : Type} [Inhabited α] (l : List α) (d : α) :
    l.headD d = l.getD 0 d := by
  cases l <;> rfl

theorem getLastD_eq_getD {α : Type} [Inhabited α] (l : List α) (d : α) :
    l.getLastD d = l.getD (l.length - 1) d := by
  induction l generalizing d with
  | nil => rfl
  | cons a l ih =>
    cases l with
    | nil => rfl
    | cons b l2 =>
      rw [List.getLastD_cons, ih a]
      have h1 : (b :: l2).length - 1 = l2.length := by simp
      have h2 : (a :: b :: l2).length - 1 = l2.length + 1 := by simp
      rw [h1, h2]
      rw [List.getD_eq_getElem _ _ (by simp), List.getD_eq_getElem _ _ (by simp)]
      rw [List.getElem_cons_succ]

theorem slice_getD {α : Type} [Inhabited α] (l : List α) (d : α) (p k i : Nat)
    (h1 : i < k) (h2 : p + i < l.length) :
    ((l.drop p).take k).getD i d = l.getD (p + i) d := by
  rw [List.getD_eq_getD_get?, List.getD_eq_getD_get?, List.get?_eq_getElem?,
    List.get?_eq_getElem?, List.getElem?_take, if_pos h1, List.getElem?_drop]


namespace TokenStream

theorem next_space_step (ts : TokenStream) (h1 : ts.pointer < ts.source.length)
    (h2 : ts.char_at_pointer = ' ') :
    ts.next = TokenStream.next { ts with pointer := ts.pointer + 1 } := by
  have heos : ¬(ts.end_of_stream = true) := by
    simp [TokenStream.end_of_stream]
    omega
  rw [TokenStream.next.eq_def, dif_neg heos, if_neg (by rw [h2]; decide), if_neg (by rw [h2]; decide), if_neg (by rw [h2]; decide),
    if_neg (by rw [h2]; decide), if_neg (by rw [h2]; decide), if_neg (by rw [h2]; decide),
    if_neg (by rw [h2]; decide), if_pos h2]

theorem next_nl_step (ts : TokenStream) (h1 : ts.pointer < ts.source.length)
    (h2 : ts.char_at_pointer = '\n' ∨ ts.char_at_pointer = '\r' ∨ ts.char_at_pointer = '\t') :
    ts.next = TokenStream.next { ts with pointer := ts.pointer + 1, line := ts.line + 1 } := by
  have heos : ¬(ts.end_of_stream = true) := by
    simp [TokenStream.end_of_stream]
    omega
  rw [TokenStream.next.eq_def, dif_neg heos, if_neg (by rcases h2 with hx | hx | hx <;> rw [hx] <;> decide), if_neg (by rcases h2 with hx | hx | hx <;> rw [hx] <;> decide), if_neg (by rcases h2 with hx | hx | hx <;> rw [hx] <;> decide),
    if_neg (by rcases h2 with hx | hx | hx <;> rw [hx] <;> decide), if_neg (by rcases h2 with hx | hx | hx <;> rw [hx] <;> decide), if_neg (by rcases h2 with hx | hx | hx <;> rw [hx] <;> decide), if_neg (by rcases h2 with hx | hx | hx <;> rw [hx] <;> decide), if_neg (by rcases h2 with hx | hx | hx <;> rw [hx] <;> decide),
    if_neg (by rcases h2 with hx | hx | hx <;> rw [hx] <;> decide), if_neg (by rcases h2 with hx | hx | hx <;> rw [hx] <;> decide), if_pos h2]

/-- When `next` succeeds with the cursor on a non-whitespace character, the
token is produced at the current line. -/
theorem next_ok_line_eq_nonws (ts : TokenStream) (tok : Token) (ts₂ : TokenStream)
    (h1 : ts.pointer < ts.source.length)
    (h2 : isWsChar ts.char_at_pointer = false)
    (h : ts.next = (Except.ok tok, ts₂)) : tok.line = ts.line := by
  have heos : ¬(ts.end_of_stream = true) := by
    simp [TokenStream.end_of_stream]
    omega
  rw [next.eq_def, dif_neg heos] at h
  by_cases hcc : ts.char_at_pointer = '{'
  · rw [if_pos hcc] at h
    obtain ⟨_, _, c, _⟩ := single_token_ok _ _ _ _ h
    exact c
  · rw [if_neg hcc] at h
    by_cases hcc : ts.char_at_pointer = '}'
    · rw [if_pos hcc] at h
      obtain ⟨_, _, c, _⟩ := single_token_ok _ _ _ _ h
      exact c
    · rw [if_neg hcc] at h
      by_cases hcc : ts.char_at_pointer = '['
      · rw [if_pos hcc] at h
        obtain ⟨_, _, c, _⟩ := single_token_ok _ _ _ _ h
        exact c
      · rw [if_neg hcc] at h
        by_cases hcc : ts.char_at_pointer = ']'
        · rw [if_pos hcc] at h
          obtain ⟨_, _, c, _⟩ := single_token_ok _ _ _ _ h
          exact c
        · rw [if_neg hcc] at h
          by_cases hcc : ts.char_at_pointer = ','
          · rw [if_pos hcc] at h
            obtain ⟨_, _, c, _⟩ := single_token_ok _ _ _ _ h
            exact c
          · rw [if_neg hcc] at h
            by_cases hcc : ts.char_at_pointer = ':'
            · rw [if_pos hcc] at h
              obtain ⟨_, _, c, _⟩ := single_token_ok _ _ _ _ h
              exact c
            · rw [if_neg hcc] at h
              by_cases hcc : ts.char_at_pointer = '"'
              · rw [if_pos hcc] at h
                obtain ⟨_, _, c, _⟩ := tokenize_string_ok _ _ _ h
                exact c
              · rw [if_neg hcc] at h
                by_cases hcc : ts.char_at_pointer = ' '
                · rw [if_pos hcc] at h
                  rw [hcc] at h2
                  simp [isWsChar] at h2
                · rw [if_neg hcc] at h
                  by_cases hcc : (ts.char_at_pointer).isDigit = true
                  · rw [if_pos hcc] at h
                    obtain ⟨_, _, c, _, _⟩ := tokenize_number_ok _ _ _ h
                    exact c
                  · rw [if_neg hcc] at h
                    by_cases hcc : (ts.char_at_pointer).isAlpha = true
                    · rw [if_pos hcc] at h
                      obtain ⟨_, _, c, _⟩ := tokenize_literal_ok _ _ _ h
                      exact c
                    · rw [if_neg hcc] at h
                      by_cases hcc : ts.char_at_pointer = '\n' ∨ ts.char_at_pointer = '\r' ∨ ts.char_at_pointer = '\t'
                      · rw [if_pos hcc] at h
                        rcases hcc with hx | hx | hx <;> rw [hx] at h2 <;> simp [isWsChar] at h2
                      · rw [if_neg hcc] at h
                        exact absurd h (by simp)

theorem tokens_line_lb (ts : TokenStream) : ∀ t ∈ TokenStream.tokens ts, ts.line ≤ t.line := by
  intro t ht
  rcases hn : ts.next with ⟨r, s2⟩
  cases r with
  | error e =>
    rw [TokenStream.tokens_err ts e s2 hn] at ht
    exact absurd ht (List.not_mem_nil t)
  | ok tok =>
    rw [TokenStream.tokens_cons ts tok s2 hn] at ht
    obtain ⟨_, _, hline, heq⟩ := TokenStream.next_ok ts tok s2 hn
    rcases List.mem_cons.mp ht with rfl | ht2
    · exact hline
    · have := tokens_line_lb s2 t ht2
      omega
termination_by ts.source.length - ts.pointer
decreasing_by
  obtain ⟨hsrc, hptr, _, _⟩ := TokenStream.next_ok ts tok s2 hn
  rw [hsrc]
  have hlt : ts.pointer < ts.source.length := by
    rcases Nat.lt_or_ge ts.pointer ts.source.length with hlt | hge
    · exact hlt
    · exfalso
      have heos : ts.end_of_stream = true := by
        simp [TokenStream.end_of_stream]
        omega
      rw [TokenStream.next.eq_def, dif_pos heos] at hn
      exact absurd hn (by simp)
  omega

theorem tokens_pairwise (ts : TokenStream) :
    (TokenStream.tokens ts).Pairwise (fun a b => a.line ≤ b.line) := by
  rcases hn : ts.next with ⟨r, s2⟩
  cases r with
  | error e =>
    rw [TokenStream.tokens_err ts e s2 hn]
    exact List.Pairwise.nil
  | ok tok =>
    rw [TokenStream.tokens_cons ts tok s2 hn]
    refine List.Pairwise.cons ?_ (tokens_pairwise s2)
    intro b hb
    obtain ⟨_, _, _, heq⟩ := TokenStream.next_ok ts tok s2 hn
    have := tokens_line_lb s2 b hb
    omega
termination_by ts.source.length - ts.pointer
decreasing_by
  obtain ⟨hsrc, hptr, _, _⟩ := TokenStream.next_ok ts tok s2 hn
  rw [hsrc]
  have hlt : ts.pointer < ts.source.length := by
    rcases Nat.lt_or_ge ts.pointer ts.source.length with hlt | hge
    · exact hlt
    · exfalso
      have heos : ts.end_of_stream = true := by
        simp [TokenStream.end_of_stream]
        omega
      rw [TokenStream.next.eq_def, dif_pos heos] at hn
      exact absurd hn (by simp)
  omega

end TokenStream

/-- Skipping a block of whitespace characters: `next` started at the left end
of an all-whitespace block behaves exactly like `next` started after the
block with the line advanced by the number of line-incrementing characters in
the block. -/
theorem next_skip_ws (ws : List Char) (pre rest : List Char) (line : Nat)
    (hws : ∀ c ∈ ws, isWsChar c = true) :
    TokenStream.next (⟨line, pre.length, pre ++ (ws ++ rest)⟩ : TokenStream) =
      TokenStream.next
        (⟨line + nlCount ws, pre.length + ws.length, pre ++ (ws ++ rest)⟩ : TokenStream) := by
  cases ws with
  | nil => simp [nlCount]
  | cons c cs =>
    have hc : isWsChar c = true := hws c (List.mem_cons_self c cs)
    have hcs : ∀ x ∈ cs, isWsChar x = true := fun x hx => hws x (List.mem_cons_of_mem c hx)
    have hlt : pre.length < (pre ++ ((c :: cs) ++ rest)).length := by simp
    have hchar : ((⟨line, pre.length,
        pre ++ ((c :: cs) ++ rest)⟩ : TokenStream)).char_at_pointer = c := by
      show (pre ++ ((c :: cs) ++ rest)).getD pre.length default = c
      rw [List.getD_append_right _ _ _ _ (Nat.le_refl _)]
      simp
    have hc' : ((c = ' ' ∨ c = '\n') ∨ c = '\x0d') ∨ c = '\t' := by
      simpa [isWsChar] using hc
    rcases hc' with ((hcc | hcc) | hcc) | hcc
    · subst hcc
      have key : TokenStream.next
          (⟨line, pre.length, pre ++ ((' ' :: cs) ++ rest)⟩ : TokenStream) =
          TokenStream.next
            (⟨line, pre.length + 1, pre ++ ((' ' :: cs) ++ rest)⟩ : TokenStream) :=
        TokenStream.next_space_step _ hlt hchar
      have key2 : TokenStream.next
          (⟨line, pre.length + 1, pre ++ ((' ' :: cs) ++ rest)⟩ : TokenStream) =
          TokenStream.next
            (⟨(line) + nlCount cs, (pre.length + 1) + cs.length,
              pre ++ ((' ' :: cs) ++ rest)⟩ : TokenStream) := by
        have hstep := next_skip_ws cs (pre ++ [' ']) rest (line) hcs
        have e1 : (pre ++ [' ']).length = pre.length + 1 := by simp
        have e2 : (pre ++ [' ']) ++ (cs ++ rest) = pre ++ ((' ' :: cs) ++ rest) := by simp
        rw [e1, e2] at hstep
        exact hstep
      rw [key, key2]
      apply congrArg TokenStream.next
      simp only [TokenStream.mk.injEq]
      have hnlc : nlCount (' ' :: cs) = nlCount cs := by simp [nlCount, List.countP_cons, isNlChar]
      have hlen2 : (' ' :: cs).length = cs.length + 1 := List.length_cons ' ' cs
      refine ⟨by omega, by omega, trivial⟩
    · subst hcc
      have key : TokenStream.next
          (⟨line, pre.length, pre ++ (('\n' :: cs) ++ rest)⟩ : TokenStream) =
          TokenStream.next
            (⟨line + 1, pre.length + 1, pre ++ (('\n' :: cs) ++ rest)⟩ : TokenStream) :=
        TokenStream.next_nl_step _ hlt (Or.inl hchar)
      have key2 : TokenStream.next
          (⟨line + 1, pre.length + 1, pre ++ (('\n' :: cs) ++ rest)⟩ : TokenStream) =
          TokenStream.next
            (⟨(line + 1) + nlCount cs, (pre.length + 1) + cs.length,
              pre ++ (('\n' :: cs) ++ rest)⟩ : TokenStream) := by
        have hstep := next_skip_ws cs (pre ++ ['\n']) rest (line + 1) hcs
        have e1 : (pre ++ ['\n']).length = pre.length + 1 := by simp
        have e2 : (pre ++ ['\n']) ++ (cs ++ rest) = pre ++ (('\n' :: cs) ++ rest) := by simp
        rw [e1, e2] at hstep
        exact hstep
      rw [key, key2]
      apply congrArg TokenStream.next
      simp only [TokenStream.mk.injEq]
      have hnlc : nlCount ('\n' :: cs) = nlCount cs + 1 := by simp [nlCount, List.countP_cons, isNlChar]
      have hlen2 : ('\n' :: cs).length = cs.length + 1 := List.length_cons '\n' cs
      refine ⟨by omega, by omega, trivial⟩
    · subst hcc
      have key : TokenStream.next
          (⟨line, pre.length, pre ++ (('\r' :: cs) ++ rest)⟩ : TokenStream) =
          TokenStream.next
            (⟨line + 1, pre.length + 1, pre ++ (('\r' :: cs) ++ rest)⟩ : TokenStream) :=
        TokenStream.next_nl_step _ hlt (Or.inr (Or.inl hchar))
      have key2 : TokenStream.next
          (⟨line + 1, pre.length + 1, pre ++ (('\r' :: cs) ++ rest)⟩ : TokenStream) =
          TokenStream.next
            (⟨(line + 1) + nlCount cs, (pre.length + 1) + cs.length,
              pre ++ (('\r' :: cs) ++ rest)⟩ : TokenStream) := by
        have hstep := next_skip_ws cs (pre ++ ['\r']) rest (line + 1) hcs
        have e1 : (pre ++ ['\r']).length = pre.length + 1 := by simp
        have e2 : (pre ++ ['\r']) ++ (cs ++ rest) = pre ++ (('\r' :: cs) ++ rest) := by simp
        rw [e1, e2] at hstep
        exact hstep
      rw [key, key2]
      apply congrArg TokenStream.next
      simp only [TokenStream.mk.injEq]
      have hnlc : nlCount ('\r' :: cs) = nlCount cs + 1 := by simp [nlCount, List.countP_cons, isNlChar]
      have hlen2 : ('\r' :: cs).length = cs.length + 1 := List.length_cons '\r' cs
      refine ⟨by omega, by omega, trivial⟩
    · subst hcc
      have key : TokenStream.next
          (⟨line, pre.length, pre ++ (('\t' :: cs) ++ rest)⟩ : TokenStream) =
          TokenStream.next
            (⟨line + 1, pre.length + 1, pre ++ (('\t' :: cs) ++ rest)⟩ : TokenStream) :=
        TokenStream.next_nl_step _ hlt (Or.inr (Or.inr hchar))
      have key2 : TokenStream.next
          (⟨line + 1, pre.length + 1, pre ++ (('\t' :: cs) ++ rest)⟩ : TokenStream) =
          TokenStream.next
            (⟨(line + 1) + nlCount cs, (pre.length + 1) + cs.length,
              pre ++ (('\t' :: cs) ++ rest)⟩ : TokenStream) := by
        have hstep := next_skip_ws cs (pre ++ ['\t']) rest (line + 1) hcs
        have e1 : (pre ++ ['\t']).length = pre.length + 1 := by simp
        have e2 : (pre ++ ['\t']) ++ (cs ++ rest) = pre ++ (('\t' :: cs) ++ rest) := by simp
        rw [e1, e2] at hstep
        exact hstep
      rw [key, key2]
      apply congrArg TokenStream.next
      simp only [TokenStream.mk.injEq]
      have hnlc : nlCount ('\t' :: cs) = nlCount cs + 1 := by simp [nlCount, List.countP_cons, isNlChar]
      have hlen2 : ('\t' :: cs).length = cs.length + 1 := List.length_cons '\t' cs
      refine ⟨by omega, by omega, trivial⟩


theorem wsChar_not_digit (c : Char) (h : isWsChar c = true) : c.isDigit = false := by
  have h' : ((c = ' ' ∨ c = '\n') ∨ c = '\x0d') ∨ c = '\t' := by
    simpa [isWsChar] using h
  rcases h' with ((h2 | h2) | h2) | h2 <;> subst h2 <;> decide

theorem wsChar_not_alpha (c : Char) (h : isWsChar c = true) : c.isAlpha = false := by
  have h' : ((c = ' ' ∨ c = '\n') ∨ c = '\x0d') ∨ c = '\t' := by
    simpa [isWsChar] using h
  rcases h' with ((h2 | h2) | h2) | h2 <;> subst h2 <;> decide

namespace TokenStream

theorem eos_false_iff (ts : TokenStream) :
    ts.end_of_stream = false ↔ ts.pointer < ts.source.length := by
  simp [end_of_stream]

theorem single_token_extend (ts : TokenStream) (k : TokenKind) (ws : List Char)
    (tok : Token) (ts₂ : TokenStream) (h : ts.single_token k = (Except.ok tok, ts₂)) :
    TokenStream.single_token (⟨ts.line, ts.pointer, ts.source ++ ws⟩ : TokenStream) k =
      (Except.ok tok, (⟨ts₂.line, ts₂.pointer, ts.source ++ ws⟩ : TokenStream)) := by
  unfold single_token at h ⊢
  injection h with h1 h2
  injection h1 with h1
  rw [← h1, ← h2]

theorem string_scan_extend (ts : TokenStream) (start : Nat) (ws : List Char)
    (tok : Token) (ts₂ : TokenStream) (hstart : start ≤ ts.pointer)
    (h : ts.string_scan start = (Except.ok tok, ts₂)) :
    TokenStream.string_scan (⟨ts.line, ts.pointer, ts.source ++ ws⟩ : TokenStream) start =
      (Except.ok tok, (⟨ts₂.line, ts₂.pointer, ts.source ++ ws⟩ : TokenStream)) := by
  rw [string_scan.eq_def] at h
  by_cases hlt : ts.pointer < ts.source.length
  · rw [dif_pos hlt] at h
    have hlt' : ((⟨ts.line, ts.pointer, ts.source ++ ws⟩ : TokenStream)).pointer <
        ((⟨ts.line, ts.pointer, ts.source ++ ws⟩ : TokenStream)).source.length := by
      simp
      omega
    have hchar : ((⟨ts.line, ts.pointer, ts.source ++ ws⟩ : TokenStream)).char_at_pointer =
        ts.char_at_pointer := by
      show (ts.source ++ ws).getD ts.pointer default = ts.source.getD ts.pointer default
      exact List.getD_append _ _ _ _ hlt
    rw [string_scan.eq_def, dif_pos hlt', hchar]
    by_cases hq : ts.char_at_pointer = '"'
    · rw [if_pos hq] at h ⊢
      injection h with h1 h2
      injection h1 with h1
      have hslice : ((ts.source ++ ws).drop start).take (ts.pointer + 1 - start) =
          (ts.source.drop start).take (ts.pointer + 1 - start) := by
        rw [List.drop_append_of_le_length (by omega),
          List.take_append_of_le_length (by rw [List.length_drop]; omega)]
      rw [hslice, ← h1, ← h2]
    · rw [if_neg hq] at h ⊢
      by_cases hn : ts.char_at_pointer = '\n'
      · rw [if_pos hn] at h
        exact absurd h (by simp)
      · rw [if_neg hn] at h ⊢
        exact string_scan_extend { ts with pointer := ts.pointer + 1 } start ws tok ts₂
          (Nat.le_trans hstart (Nat.le_succ _)) h
  · rw [dif_neg hlt] at h
    exact absurd h (by simp)
termination_by ts.source.length - ts.pointer
decreasing_by
  show ts.source.length - (ts.pointer + 1) < ts.source.length - ts.pointer
  omega

theorem tokenize_string_extend (ts : TokenStream) (ws : List Char)
    (tok : Token) (ts₂ : TokenStream) (h : ts.tokenize_string = (Except.ok tok, ts₂)) :
    TokenStream.tokenize_string (⟨ts.line, ts.pointer, ts.source ++ ws⟩ : TokenStream) =
      (Except.ok tok, (⟨ts₂.line, ts₂.pointer, ts.source ++ ws⟩ : TokenStream)) := by
  unfold tokenize_string at h ⊢
  exact string_scan_extend { ts with pointer := ts.pointer + 1 } ts.pointer ws tok ts₂
    (Nat.le_succ _) h

theorem tokenize_number_extend (ts : TokenStream) (ws : List Char) (tok : Token)
    (ts₂ : TokenStream) (hp : ts.pointer ≤ ts.source.length)
    (hws : ∀ c ∈ ws, isWsChar c = true)
    (h : ts.tokenize_number = (Except.ok tok, ts₂)) :
    TokenStream.tokenize_number (⟨ts.line, ts.pointer, ts.source ++ ws⟩ : TokenStream) =
      (Except.ok tok, (⟨ts₂.line, ts₂.pointer, ts.source ++ ws⟩ : TokenStream)) := by
  have hre : run_end Char.isDigit (ts.source ++ ws) ts.pointer =
      run_end Char.isDigit ts.source ts.pointer :=
    run_end_extend _ _ _ _ hp (fun c hc => wsChar_not_digit c (hws c hc))
  have hle := run_end_le Char.isDigit ts.source ts.pointer hp
  have hslice : ((ts.source ++ ws).drop ts.pointer).take
      (run_end Char.isDigit (ts.source ++ ws) ts.pointer - ts.pointer) =
      (ts.source.drop ts.pointer).take
        (run_end Char.isDigit ts.source ts.pointer - ts.pointer) := by
    rw [hre, List.drop_append_of_le_length hp,
      List.take_append_of_le_length (by rw [List.length_drop]; omega)]
  unfold tokenize_number at h ⊢
  dsimp only at h ⊢
  rw [hslice, hre]
  cases hv : parse_f64 ((ts.source.drop ts.pointer).take
      (run_end Char.isDigit ts.source ts.pointer - ts.pointer)) with
  | none =>
    rw [hv] at h
    exact absurd h (by simp)
  | some n =>
    rw [hv] at h
    dsimp only at h
    injection h with h1 h2
    injection h1 with h1
    rw [← h1, ← h2]

theorem tokenize_literal_extend (ts : TokenStream) (ws : List Char) (tok : Token)
    (ts₂ : TokenStream) (hp : ts.pointer ≤ ts.source.length)
    (hws : ∀ c ∈ ws, isWsChar c = true)
    (h : ts.tokenize_literal = (Except.ok tok, ts₂)) :
    TokenStream.tokenize_literal (⟨ts.line, ts.pointer, ts.source ++ ws⟩ : TokenStream) =
      (Except.ok tok, (⟨ts₂.line, ts₂.pointer, ts.source ++ ws⟩ : TokenStream)) := by
  have hre : run_end Char.isAlpha (ts.source ++ ws) ts.pointer =
      run_end Char.isAlpha ts.source ts.pointer :=
    run_end_extend _ _ _ _ hp (fun c hc => wsChar_not_alpha c (hws c hc))
  have hle := run_end_le Char.isAlpha ts.source ts.pointer hp
  have hslice : ((ts.source ++ ws).drop ts.pointer).take
      (run_end Char.isAlpha (ts.source ++ ws) ts.pointer - ts.pointer) =
      (ts.source.drop ts.pointer).take
        (run_end Char.isAlpha ts.source ts.pointer - ts.pointer) := by
    rw [hre, List.drop_append_of_le_length hp,
      List.take_append_of_le_length (by rw [List.length_drop]; omega)]
  unfold tokenize_literal at h ⊢
  dsimp only at h ⊢
  rw [hslice, hre]
  by_cases hb1 : (ts.source.drop ts.pointer).take
      (run_end Char.isAlpha ts.source ts.pointer - ts.pointer) = ['t', 'r', 'u', 'e']
  · rw [if_pos hb1] at h ⊢
    injection h with h1 h2
    injection h1 with h1
    rw [← h1, ← h2]
  · rw [if_neg hb1] at h ⊢
    by_cases hb2 : (ts.source.drop ts.pointer).take
        (run_end Char.isAlpha ts.source ts.pointer - ts.pointer) = ['f', 'a', 'l', 's', 'e']
    · rw [if_pos hb2] at h ⊢
      injection h with h1 h2
      injection h1 with h1
      rw [← h1, ← h2]
    · rw [if_neg hb2] at h ⊢
      by_cases hb3 : (ts.source.drop ts.pointer).take
          (run_end Char.isAlpha ts.source ts.pointer - ts.pointer) = ['n', 'u', 'l', 'l']
      · rw [if_pos hb3] at h ⊢
        injection h with h1 h2
        injection h1 with h1
        rw [← h1, ← h2]
      · rw [if_neg hb3] at h
        exact absurd h (by simp)

end TokenStream

namespace TokenStream

/-- `next` never moves the cursor past the end of the source buffer. -/
theorem next_ptr_le (ts : TokenStream) (hp : ts.pointer ≤ ts.source.length) :
    (ts.next).2.pointer ≤ ts.source.length := by
  rw [next.eq_def]
  by_cases heos : ts.end_of_stream = true
  · rw [dif_pos heos]
    exact hp
  · rw [dif_neg heos]
    have hlt := not_eos_lt ts heos
    by_cases c1 : ts.char_at_pointer = '{'
    · rw [if_pos c1]
      simp [single_token]
      omega
    · rw [if_neg c1]
      by_cases c2 : ts.char_at_pointer = '}'
      · rw [if_pos c2]
        simp [single_token]
        omega
      · rw [if_neg c2]
        by_cases c3 : ts.char_at_pointer = '['
        · rw [if_pos c3]
          simp [single_token]
          omega
        · rw [if_neg c3]
          by_cases c4 : ts.char_at_pointer = ']'
          · rw [if_pos c4]
            simp [single_token]
            omega
          · rw [if_neg c4]
            by_cases c5 : ts.char_at_pointer = ','
            · rw [if_pos c5]
              simp [single_token]
              omega
            · rw [if_neg c5]
              by_cases c6 : ts.char_at_pointer = ':'
              · rw [if_pos c6]
                simp [single_token]
                omega
              · rw [if_neg c6]
                by_cases c7 : ts.char_at_pointer = '"'
                · rw [if_pos c7]
                  exact string_scan_ptr_le { ts with pointer := ts.pointer + 1 } ts.pointer
                    (by show ts.pointer + 1 ≤ ts.source.length; omega)
                · rw [if_neg c7]
                  by_cases c8 : ts.char_at_pointer = ' '
                  · rw [if_pos c8]
                    exact next_ptr_le { ts with pointer := ts.pointer + 1 }
                      (by show ts.pointer + 1 ≤ ts.source.length; omega)
                  · rw [if_neg c8]
                    by_cases c9 : (ts.char_at_pointer).isDigit = true
                    · rw [if_pos c9]
                      rw [tokenize_number_state]
                      exact run_end_le Char.isDigit ts.source ts.pointer hp
                    · rw [if_neg c9]
                      by_cases c10 : (ts.char_at_pointer).isAlpha = true
                      · rw [if_pos c10]
                        rw [tokenize_literal_state]
                        exact run_end_le Char.isAlpha ts.source ts.pointer hp
                      · rw [if_neg c10]
                        by_cases c11 : ts.char_at_pointer = '\n' ∨ ts.char_at_pointer = '\x0d' ∨ ts.char_at_pointer = '\t'
                        · rw [if_pos c11]
                          exact next_ptr_le { ts with pointer := ts.pointer + 1, line := ts.line + 1 }
                            (by show ts.pointer + 1 ≤ ts.source.length; omega)
                        · rw [if_neg c11]
                          exact hp
termination_by ts.source.length - ts.pointer
decreasing_by
  all_goals show ts.source.length - (ts.pointer + 1) < ts.source.length - ts.pointer
  all_goals omega

/-- Appending whitespace-only characters to the source does not change the
behavior of a successful `next`: the same token is produced and the cursor and
line move identically (whitespace characters cannot extend a digit or letter
run, and a successful string scan never reaches the old end of input). -/
theorem next_extend (ts : TokenStream) (ws : List Char) (tok : Token) (ts₂ : TokenStream)
    (hws : ∀ c ∈ ws, isWsChar c = true)
    (h : ts.next = (Except.ok tok, ts₂)) :
    TokenStream.next (⟨ts.line, ts.pointer, ts.source ++ ws⟩ : TokenStream) =
      (Except.ok tok, (⟨ts₂.line, ts₂.pointer, ts.source ++ ws⟩ : TokenStream)) := by
  have hlt : ts.pointer < ts.source.length := by
    rcases Nat.lt_or_ge ts.pointer ts.source.length with hlt | hge
    · exact hlt
    · exfalso
      have heos : ts.end_of_stream = true := by
        simp [end_of_stream]
        omega
      rw [next.eq_def, dif_pos heos] at h
      exact absurd h (by simp)
  have hp : ts.pointer ≤ ts.source.length := Nat.le_of_lt hlt
  have heos : ¬(ts.end_of_stream = true) := by
    simp [end_of_stream]
    omega
  have heos2 : ¬((⟨ts.line, ts.pointer, ts.source ++ ws⟩ : TokenStream).end_of_stream = true) := by
    simp [end_of_stream]
    omega
  have hchar : (⟨ts.line, ts.pointer, ts.source ++ ws⟩ : TokenStream).char_at_pointer =
      ts.char_at_pointer := by
    show (ts.source ++ ws).getD ts.pointer default = ts.source.getD ts.pointer default
    exact List.getD_append _ _ _ _ hlt
  rw [next.eq_def] at h
  rw [dif_neg heos] at h
  rw [next.eq_def, dif_neg heos2, hchar]
  by_cases c1 : ts.char_at_pointer = '{'
  · rw [if_pos c1] at h
    rw [if_pos c1]
    exact single_token_extend ts TokenKind.LeftCurlyBracket ws tok ts₂ h
  · rw [if_neg c1] at h
    rw [if_neg c1]
    by_cases c2 : ts.char_at_pointer = '}'
    · rw [if_pos c2] at h
      rw [if_pos c2]
      exact single_token_extend ts TokenKind.RightCurlyBracket ws tok ts₂ h
    · rw [if_neg c2] at h
      rw [if_neg c2]
      by_cases c3 : ts.char_at_pointer = '['
      · rw [if_pos c3] at h
        rw [if_pos c3]
        exact single_token_extend ts TokenKind.LeftSquareBracket ws tok ts₂ h
      · rw [if_neg c3] at h
        rw [if_neg c3]
        by_cases c4 : ts.char_at_pointer = ']'
        · rw [if_pos c4] at h
          rw [if_pos c4]
          exact single_token_extend ts TokenKind.RightSquareBracket ws tok ts₂ h
        · rw [if_neg c4] at h
          rw [if_neg c4]
          by_cases c5 : ts.char_at_pointer = ','
          · rw [if_pos c5] at h
            rw [if_pos c5]
            exact single_token_extend ts TokenKind.Comma ws tok ts₂ h
          · rw [if_neg c5] at h
            rw [if_neg c5]
            by_cases c6 : ts.char_at_pointer = ':'
            · rw [if_pos c6] at h
              rw [if_pos c6]
              exact single_token_extend ts TokenKind.Colon ws tok ts₂ h
            · rw [if_neg c6] at h
              rw [if_neg c6]
              by_cases c7 : ts.char_at_pointer = '"'
              · rw [if_pos c7] at h
                rw [if_pos c7]
                exact tokenize_string_extend ts ws tok ts₂ h
              · rw [if_neg c7] at h
                rw [if_neg c7]
                by_cases c8 : ts.char_at_pointer = ' '
                · rw [if_pos c8] at h
                  rw [if_pos c8]
                  exact next_extend { ts with pointer := ts.pointer + 1 } ws tok ts₂ hws h
                · rw [if_neg c8] at h
                  rw [if_neg c8]
                  by_cases c9 : (ts.char_at_pointer).isDigit = true
                  · rw [if_pos c9] at h
                    rw [if_pos c9]
                    exact tokenize_number_extend ts ws tok ts₂ hp hws h
                  · rw [if_neg c9] at h
                    rw [if_neg c9]
                    by_cases c10 : (ts.char_at_pointer).isAlpha = true
                    · rw [if_pos c10] at h
                      rw [if_pos c10]
                      exact tokenize_literal_extend ts ws tok ts₂ hp hws h
                    · rw [if_neg c10] at h
                      rw [if_neg c10]
                      by_cases c11 : ts.char_at_pointer = '\n' ∨ ts.char_at_pointer = '\x0d' ∨ ts.char_at_pointer = '\t'
                      · rw [if_pos c11] at h
                        rw [if_pos c11]
                        exact next_extend { ts with pointer := ts.pointer + 1, line := ts.line + 1 } ws tok ts₂ hws h
                      · rw [if_neg c11] at h
                        rw [if_neg c11]
                        exact absurd h (by simp)
termination_by ts.source.length - ts.pointer
decreasing_by
  all_goals show ts.source.length - (ts.pointer + 1) < ts.source.length - ts.pointer
  all_goals omega


/-- From any position from which only whitespace characters remain, `next`
skips them all and fails with `EndOfStream`. -/
theorem next_ws_err (ts : TokenStream)
    (h : ∀ i, ts.pointer ≤ i → i < ts.source.length →
      isWsChar (ts.source.getD i default) = true) :
    ∃ ln ts₂, ts.next =
      (Except.error { line := ln, kind := ParseErrorKind.EndOfStream }, ts₂) := by
  by_cases heos : ts.end_of_stream = true
  · exact ⟨ts.line, ts, by rw [next.eq_def, dif_pos heos]⟩
  · have hlt := not_eos_lt ts heos
    have hw : isWsChar ts.char_at_pointer = true := h ts.pointer (Nat.le_refl _) hlt
    have hc' : ((ts.char_at_pointer = ' ' ∨ ts.char_at_pointer = '\n') ∨
        ts.char_at_pointer = '\x0d') ∨ ts.char_at_pointer = '\t' := by
      simpa [isWsChar] using hw
    have hshift : ∀ i, ts.pointer + 1 ≤ i → i < ts.source.length →
        isWsChar (ts.source.getD i default) = true :=
      fun i h1 h2 => h i (Nat.le_trans (Nat.le_succ _) h1) h2
    rcases hc' with ((hcc | hcc) | hcc) | hcc
    · rw [next_space_step ts hlt hcc]
      exact next_ws_err { ts with pointer := ts.pointer + 1 } hshift
    · rw [next_nl_step ts hlt (Or.inl hcc)]
      exact next_ws_err { ts with pointer := ts.pointer + 1, line := ts.line + 1 } hshift
    · rw [next_nl_step ts hlt (Or.inr (Or.inl hcc))]
      exact next_ws_err { ts with pointer := ts.pointer + 1, line := ts.line + 1 } hshift
    · rw [next_nl_step ts hlt (Or.inr (Or.inr hcc))]
      exact next_ws_err { ts with pointer := ts.pointer + 1, line := ts.line + 1 } hshift
termination_by ts.source.length - ts.pointer
decreasing_by
  all_goals show ts.source.length - (ts.pointer + 1) < ts.source.length - ts.pointer
  all_goals omega

end TokenStream

namespace Parser

theorem parse_primitive_ok_next (ts : TokenStream) (p : Primitive) (ts' : TokenStream)
    (h : parse_primitive ts = Except.ok (p, ts')) :
    ∃ tok, ts.next = (Except.ok tok, ts') := by
  unfold parse_primitive at h
  split at h
  · exact absurd h (by simp)
  · rename_i tok ts₂ heq
    split at h <;>
      first
      | (injection h with h
         injection h with hp2 hs
         exact ⟨tok, hs ▸ heq⟩)
      | exact absurd h (by simp)

/-- Appending a nonempty all-whitespace suffix to a source that parses
successfully turns the result into an `EndOfStream` error: after the last
value the stream is not exhausted, so the parser calls `parse_primitive`
again, which skips the whitespace and hits the end of input. -/
theorem parse_extend (ts : TokenStream) (ws : List Char) (vs : List Primitive)
    (hws : ∀ c ∈ ws, isWsChar c = true) (hw0 : ws ≠ [])
    (hp : ts.pointer ≤ ts.source.length)
    (h : parse ts = Except.ok vs) :
    ∃ ln, parse (⟨ts.line, ts.pointer, ts.source ++ ws⟩ : TokenStream) =
      Except.error { line := ln, kind := ParseErrorKind.EndOfStream } := by
  by_cases heos : ts.end_of_stream = true
  · have hlen : ts.source.length ≤ ts.pointer := by
      simp [TokenStream.end_of_stream] at heos
      omega
    have hwlen : 0 < ws.length := List.length_pos.mpr hw0
    have heos2 : (⟨ts.line, ts.pointer, ts.source ++ ws⟩ : TokenStream).end_of_stream = false := by
      rw [TokenStream.eos_false_iff]
      simp
      omega
    have hall : ∀ i, (⟨ts.line, ts.pointer, ts.source ++ ws⟩ : TokenStream).pointer ≤ i →
        i < (⟨ts.line, ts.pointer, ts.source ++ ws⟩ : TokenStream).source.length →
        isWsChar ((⟨ts.line, ts.pointer, ts.source ++ ws⟩ :
          TokenStream).source.getD i default) = true := by
      intro i h1 h2
      show isWsChar ((ts.source ++ ws).getD i default) = true
      have h1' : ts.source.length ≤ i := Nat.le_trans hlen h1
      rw [List.getD_append_right _ _ _ _ h1']
      have h2' : i - ts.source.length < ws.length := by
        simp at h2
        omega
      rw [List.getD_eq_getElem _ _ h2']
      exact hws _ (List.getElem_mem _)
    obtain ⟨ln, ts₂, hne⟩ := TokenStream.next_ws_err _ hall
    refine ⟨ln, parse_err _ _ heos2 ?_⟩
    unfold parse_primitive
    rw [hne]
  · have h1 : ts.end_of_stream = false := by
      revert heos
      cases ts.end_of_stream <;> simp
    cases hpp : parse_primitive ts with
    | error e =>
      rw [parse_err ts e h1 hpp] at h
      exact absurd h (by simp)
    | ok pr =>
      cases pr with
      | mk p ts' =>
        rw [parse_cons ts p ts' h1 hpp] at h
        cases hres : parse ts' with
        | error e =>
          rw [hres] at h
          simp [Except.map] at h
        | ok rest =>
          obtain ⟨hsrc', hptr'⟩ := parse_primitive_ok ts p ts' hpp
          obtain ⟨tok, hnx⟩ := parse_primitive_ok_next ts p ts' hpp
          have hple : ts'.pointer ≤ ts'.source.length := by
            have hb := TokenStream.next_ptr_le ts hp
            rw [hnx] at hb
            rw [hsrc']
            exact hb
          have hnx' := TokenStream.next_extend ts ws tok ts' hws hnx
          have hpp' : parse_primitive (⟨ts.line, ts.pointer, ts.source ++ ws⟩ : TokenStream) =
              Except.ok (p, (⟨ts'.line, ts'.pointer, ts.source ++ ws⟩ : TokenStream)) := by
            unfold parse_primitive at hpp ⊢
            rw [hnx] at hpp
            rw [hnx']
            dsimp only at hpp ⊢
            cases htk : tok.kind <;> rw [htk] at hpp <;> (try dsimp only at hpp ⊢) <;>
              first
              | (injection hpp with hpp2
                 injection hpp2 with hp2 hs2
                 rw [hp2])
              | exact absurd hpp (by simp)
          obtain ⟨ln, hrec⟩ := parse_extend ts' ws rest hws hw0 hple hres
          rw [hsrc'] at hrec
          refine ⟨ln, ?_⟩
          have heos2 : (⟨ts.line, ts.pointer, ts.source ++ ws⟩ :
              TokenStream).end_of_stream = false := by
            rw [TokenStream.eos_false_iff]
            have := TokenStream.not_eos_lt ts heos
            simp
            omega
          rw [parse_cons _ p _ heos2 hpp', hrec]
          simp [Except.map]
termination_by ts.source.length - ts.pointer
decreasing_by
  rw [hsrc']
  have := TokenStream.not_eos_lt ts heos
  omega

end Parser

/-!
### Claims
-/

/-- C1: the spec claims that parsing `"\x7b\x7d"` yields an empty Object and
parsing `"[]"` yields an empty Array (with `parseValue` dispatching on a
peeked `\x7b` or `[` to object/array sub-parsers producing `Container`
nodes).  The parser of `src/parser.rs` has no such dispatch: it parses only
primitive sequences, and on both inputs it fails with `NotAPrimitive` at
line 1 (the intent documented by the grammar comments of `src/ast.rs` and
`src/parser.rs`, and by the unused `Container` AST arm, is container
parsing, so this is recorded as a defect of the code, not of the spec). -/
theorem claim_C1 :
    Parser.parse (TokenStream.new ['\x7b', '\x7d']) =
      Except.error { line := 1, kind := ParseErrorKind.NotAPrimitive } ∧
    Parser.parse (TokenStream.new ['[', ']']) =
      Except.error { line := 1, kind := ParseErrorKind.NotAPrimitive } := by
  constructor
  · exact Parser.parse_err _ _ (by decide) (by
      simp [TokenStream.new, Parser.parse_primitive, TokenStream.next.eq_def, TokenStream.end_of_stream,
    TokenStream.char_at_pointer, TokenStream.single_token, TokenStream.tokenize_string,
    TokenStream.string_scan.eq_def, TokenStream.tokenize_number, TokenStream.tokenize_literal,
    TokenStream.run_end.eq_def, TokenStream.parse_f64, TokenStream.natOfDigits])
  · exact Parser.parse_err _ _ (by decide) (by
      simp [TokenStream.new, Parser.parse_primitive, TokenStream.next.eq_def, TokenStream.end_of_stream,
    TokenStream.char_at_pointer, TokenStream.single_token, TokenStream.tokenize_string,
    TokenStream.string_scan.eq_def, TokenStream.tokenize_number, TokenStream.tokenize_literal,
    TokenStream.run_end.eq_def, TokenStream.parse_f64, TokenStream.natOfDigits])

/-- C2: `peek` is pure lookahead: it restores the stream state exactly (so
any number of consecutive peeks return the same result), it returns exactly
what `next` would return, and a subsequent `next` behaves as if the peek had
never happened (returning that identical token and advancing by exactly that
one token). -/
theorem claim_C2 (ts : TokenStream) :
    (ts.peek).2 = ts ∧ (ts.peek).1 = (ts.next).1 ∧
      (ts.peek).2.peek = ts.peek ∧ (ts.peek).2.next = ts.next := by
  have h2 : (ts.peek).2 = ts := by
    unfold TokenStream.peek
    dsimp only
    rw [TokenStream.next_src]
  exact ⟨h2, rfl, by rw [h2], by rw [h2]⟩

/-- C3: parsing the space-separated top-level primitives `35 "x" false null`
succeeds with the four-element sequence `[Number 35, String "\"x\"",
Boolean false, Null]` in source order — the parse entry point accepts a
sequence of top-level values rather than one root value. -/
theorem claim_C3 :
    Parser.parse (TokenStream.new
      ['3', '5', ' ', '"', 'x', '"', ' ', 'f', 'a', 'l', 's', 'e', ' ', 'n', 'u', 'l', 'l']) =
      Except.ok [Primitive.Number 35, Primitive.String ['"', 'x', '"'],
        Primitive.Boolean false, Primitive.Null] := by
  have e1 : Parser.parse_primitive (TokenStream.new
      ['3', '5', ' ', '"', 'x', '"', ' ', 'f', 'a', 'l', 's', 'e', ' ', 'n', 'u', 'l', 'l']) =
      Except.ok (Primitive.Number 35, { line := 1, pointer := 2, source :=
        ['3', '5', ' ', '"', 'x', '"', ' ', 'f', 'a', 'l', 's', 'e', ' ', 'n', 'u', 'l', 'l'] }) := by
    simp [TokenStream.new, Parser.parse_primitive, TokenStream.next.eq_def, TokenStream.end_of_stream,
    TokenStream.char_at_pointer, TokenStream.single_token, TokenStream.tokenize_string,
    TokenStream.string_scan.eq_def, TokenStream.tokenize_number, TokenStream.tokenize_literal,
    TokenStream.run_end.eq_def, TokenStream.parse_f64, TokenStream.natOfDigits]
  have e2 : Parser.parse_primitive ({ line := 1, pointer := 2, source :=
      ['3', '5', ' ', '"', 'x', '"', ' ', 'f', 'a', 'l', 's', 'e', ' ', 'n', 'u', 'l', 'l'] } : TokenStream) =
      Except.ok (Primitive.String ['"', 'x', '"'], { line := 1, pointer := 6, source :=
        ['3', '5', ' ', '"', 'x', '"', ' ', 'f', 'a', 'l', 's', 'e', ' ', 'n', 'u', 'l', 'l'] }) := by
    simp [Parser.parse_primitive, TokenStream.next.eq_def, TokenStream.end_of_stream,
    TokenStream.char_at_pointer, TokenStream.single_token, TokenStream.tokenize_string,
    TokenStream.string_scan.eq_def, TokenStream.tokenize_number, TokenStream.tokenize_literal,
    TokenStream.run_end.eq_def, TokenStream.parse_f64, TokenStream.natOfDigits]
  have e3 : Parser.parse_primitive ({ line := 1, pointer := 6, source :=
      ['3', '5', ' ', '"', 'x', '"', ' ', 'f', 'a', 'l', 's', 'e', ' ', 'n', 'u', 'l', 'l'] } : TokenStream) =
      Except.ok (Primitive.Boolean false, { line := 1, pointer := 12, source :=
        ['3', '5', ' ', '"', 'x', '"', ' ', 'f', 'a', 'l', 's', 'e', ' ', 'n', 'u', 'l', 'l'] }) := by
    simp [Parser.parse_primitive, TokenStream.next.eq_def, TokenStream.end_of_stream,
    TokenStream.char_at_pointer, TokenStream.single_token, TokenStream.tokenize_string,
    TokenStream.string_scan.eq_def, TokenStream.tokenize_number, TokenStream.tokenize_literal,
    TokenStream.run_end.eq_def, TokenStream.parse_f64, TokenStream.natOfDigits]
  have e4 : Parser.parse_primitive ({ line := 1, pointer := 12, source :=
      ['3', '5', ' ', '"', 'x', '"', ' ', 'f', 'a', 'l', 's', 'e', ' ', 'n', 'u', 'l', 'l'] } : TokenStream) =
      Except.ok (Primitive.Null, { line := 1, pointer := 17, source :=
        ['3', '5', ' ', '"', 'x', '"', ' ', 'f', 'a', 'l', 's', 'e', ' ', 'n', 'u', 'l', 'l'] }) := by
    simp [Parser.parse_primitive, TokenStream.next.eq_def, TokenStream.end_of_stream,
    TokenStream.char_at_pointer, TokenStream.single_token, TokenStream.tokenize_string,
    TokenStream.string_scan.eq_def, TokenStream.tokenize_number, TokenStream.tokenize_literal,
    TokenStream.run_end.eq_def, TokenStream.parse_f64, TokenStream.natOfDigits]
  rw [Parser.parse_cons _ _ _ (by decide) e1, Parser.parse_cons _ _ _ (by decide) e2,
    Parser.parse_cons _ _ _ (by decide) e3, Parser.parse_cons _ _ _ (by decide) e4,
    Parser.parse_nil _ (by decide)]
  simp [Except.map]

/-- C8: whenever the scanner dispatches to `tokenize_number` (the cursor is
in bounds on an ASCII digit), the scanned lexeme is the maximal digit run
from the cursor, it is nonempty and all digits — so the `f64` parse succeeds
and the `InvalidNumber` branch is unreachable — and the produced token is a
single `Number` token carrying the value of that run at the current line,
with the cursor advanced to the end of the run. -/
theorem claim_C8 (ts : TokenStream) (h1 : ts.end_of_stream = false)
    (h2 : (ts.char_at_pointer).isDigit = true) :
    ∃ s, s ≠ [] ∧ s.all Char.isDigit = true ∧
      s = (ts.source.drop ts.pointer).take
        (TokenStream.run_end Char.isDigit ts.source ts.pointer - ts.pointer) ∧
      (TokenStream.run_end Char.isDigit ts.source ts.pointer < ts.source.length →
        Char.isDigit (ts.source.getD
          (TokenStream.run_end Char.isDigit ts.source ts.pointer) default) = false) ∧
      ts.tokenize_number =
        (Except.ok { kind := TokenKind.Number (TokenStream.natOfDigits s),
                      line := ts.line },
         { ts with pointer := TokenStream.run_end Char.isDigit ts.source ts.pointer }) := by
  have hlt : ts.pointer < ts.source.length := by
    unfold TokenStream.end_of_stream at h1
    simp at h1
    exact h1
  have hqp : ts.pointer < TokenStream.run_end Char.isDigit ts.source ts.pointer :=
    TokenStream.run_end_pos _ _ _ hlt h2
  have hall := TokenStream.run_end_slice_all Char.isDigit ts.source ts.pointer
  have hne : (ts.source.drop ts.pointer).take
      (TokenStream.run_end Char.isDigit ts.source ts.pointer - ts.pointer) ≠ [] := by
    apply List.ne_nil_of_length_pos
    rw [List.length_take, List.length_drop]
    omega
  refine ⟨_, hne, hall, rfl, TokenStream.run_end_stop _ _ _, ?_⟩
  have hpf : TokenStream.parse_f64 ((ts.source.drop ts.pointer).take
      (TokenStream.run_end Char.isDigit ts.source ts.pointer - ts.pointer)) =
      some (TokenStream.natOfDigits ((ts.source.drop ts.pointer).take
        (TokenStream.run_end Char.isDigit ts.source ts.pointer - ts.pointer))) := by
    unfold TokenStream.parse_f64
    rw [if_pos]
    rw [Bool.and_eq_true]
    exact ⟨by simp [List.isEmpty_iff, hne], hall⟩
  unfold TokenStream.tokenize_number
  dsimp only
  rw [hpf]

/-- C9: calling `next` on an exhausted stream (cursor at or past the end of
the source) returns an `EndOfStream` error value carrying the current line,
leaving the stream unchanged — a plain error return, not a panic or a
sentinel token. -/
theorem claim_C9 (ts : TokenStream) (h : ts.end_of_stream = true) :
    ts.next = (Except.error { line := ts.line, kind := ParseErrorKind.EndOfStream }, ts) := by
  rw [TokenStream.next.eq_def, dif_pos h]

theorem claim_C9_witness :
    (TokenStream.new []).end_of_stream = true ∧
      (TokenStream.new []).next =
        (Except.error { line := 1, kind := ParseErrorKind.EndOfStream },
         TokenStream.new []) :=
  ⟨by decide, claim_C9 (TokenStream.new []) (by decide)⟩


/-- C5: when the scanner has begun a string lexeme (cursor on the opening
quote) and either no closing quote occurs in the rest of the source, or a
newline occurs before any closing quote, `tokenize_string` fails with
`UnterminatedString` carrying the current line. -/
theorem claim_C5 (ts : TokenStream)
    (h : (∀ i, ts.pointer + 1 ≤ i → i < ts.source.length →
            ts.source.getD i default ≠ '"') ∨
         (∃ j, ts.pointer + 1 ≤ j ∧ j < ts.source.length ∧
            ts.source.getD j default = '\n' ∧
            ∀ i, ts.pointer + 1 ≤ i → i < j → ts.source.getD i default ≠ '"')) :
    (ts.tokenize_string).1 =
      Except.error { line := ts.line, kind := ParseErrorKind.UnterminatedString } := by
  unfold TokenStream.tokenize_string
  rcases h with h | ⟨j, hj1, hj2, hj3, hj4⟩
  · exact TokenStream.string_scan_err_no_quote _ _ h
  · exact TokenStream.string_scan_err_newline _ _ j hj1 hj2 hj3 hj4

theorem claim_C5_witness :
    (∀ i, 0 + 1 ≤ i → i < (['"', 'a', 'b', 'c'] : List Char).length →
        (['"', 'a', 'b', 'c'] : List Char).getD i default ≠ '"') ∧
      ((TokenStream.new ['"', 'a', 'b', 'c']).tokenize_string).1 =
        Except.error { line := 1, kind := ParseErrorKind.UnterminatedString } := by
  have hyp : ∀ i, 0 + 1 ≤ i → i < (['"', 'a', 'b', 'c'] : List Char).length →
      (['"', 'a', 'b', 'c'] : List Char).getD i default ≠ '"' := by
    intro i h1 h2
    have h2' : i < 4 := by simpa using h2
    interval_cases i <;> decide
  exact ⟨hyp, claim_C5 (TokenStream.new ['"', 'a', 'b', 'c']) (Or.inl hyp)⟩

/-- C6: every successfully scanned string token carries, verbatim, the source
slice from the opening quote through the closing quote inclusive — both
enclosing quotes are part of the stored text and no unescaping of the
contents is performed. -/
theorem claim_C6 (ts : TokenStream) (tok : Token) (ts₂ : TokenStream)
    (hq0 : ts.source.getD ts.pointer default = '"')
    (h : ts.tokenize_string = (Except.ok tok, ts₂)) :
    ∃ s, tok.kind = TokenKind.String s ∧
      s = (ts.source.drop ts.pointer).take (ts₂.pointer - ts.pointer) ∧
      s ≠ [] ∧ s.headD default = '"' ∧ s.getLastD default = '"' := by
  unfold TokenStream.tokenize_string at h
  obtain ⟨q, hq1, hq2, hq3, hq4, hq5⟩ := TokenStream.string_scan_ok _ _ _ _ h
  have hq1' : ts.pointer + 1 ≤ q := hq1
  have hq2' : q < ts.source.length := hq2
  have hq3' : ts.source.getD q default = '"' := hq3
  subst hq4
  subst hq5
  have hlen : ((ts.source.drop ts.pointer).take (q + 1 - ts.pointer)).length =
      q + 1 - ts.pointer := by
    rw [List.length_take, List.length_drop]
    omega
  refine ⟨_, rfl, rfl, ?_, ?_, ?_⟩
  · apply List.ne_nil_of_length_pos
    rw [hlen]
    omega
  · rw [headD_eq_getD, slice_getD _ _ _ _ _ (by omega) (by omega)]
    simpa using hq0
  · rw [getLastD_eq_getD, hlen]
    have harith : q + 1 - ts.pointer - 1 = q - ts.pointer := by omega
    rw [harith, slice_getD _ _ _ _ _ (by omega) (by omega)]
    have harith2 : ts.pointer + (q - ts.pointer) = q := by omega
    rw [harith2]
    exact hq3'

theorem claim_C6_witness :
    ((['"', 'x', '"'] : List Char).getD 0 default = '"') ∧
      ∃ s, (Token.mk (TokenKind.String ['"', 'x', '"']) 1).kind = TokenKind.String s ∧
        s = ((['"', 'x', '"'] : List Char).drop 0).take (3 - 0) ∧
        s ≠ [] ∧ s.headD default = '"' ∧ s.getLastD default = '"' := by
  have heval : (TokenStream.new ['"', 'x', '"']).tokenize_string =
      (Except.ok (Token.mk (TokenKind.String ['"', 'x', '"']) 1),
       { line := 1, pointer := 3, source := ['"', 'x', '"'] }) := by
    simp [TokenStream.new, TokenStream.tokenize_string, TokenStream.string_scan.eq_def,
      TokenStream.char_at_pointer]
  exact ⟨by decide, claim_C6 (TokenStream.new ['"', 'x', '"']) _ _ (by decide) heval⟩


/-- C7: along the sequence of tokens produced by repeated successful `next`
calls, line numbers are monotonically non-decreasing. -/
theorem claim_C7 (ts : TokenStream) :
    (TokenStream.tokens ts).Pairwise (fun a b => a.line ≤ b.line) :=
  TokenStream.tokens_pairwise ts

/-- C4 (amended): the original claim counts every newline/carriage-return/tab
occurring before a token; that fails when one of those characters sits inside
a string lexeme (see `claim_C4_cex`).  Amended to characters consumed as
whitespace: if a token is scanned right after a leading all-whitespace block
containing `N` newline/CR/tab characters, its reported line is the starting
line plus `N` (so `1 + N` from a fresh stream). -/
theorem claim_C4 (line : Nat) (ws rest : List Char) (tok : Token) (ts₂ : TokenStream)
    (hws : ∀ c ∈ ws, isWsChar c = true)
    (hr : isWsChar (rest.headD default) = false)
    (h : TokenStream.next (⟨line, 0, ws ++ rest⟩ : TokenStream) =
      (Except.ok tok, ts₂)) :
    tok.line = line + nlCount ws := by
  have h0 : TokenStream.next
      (⟨line, ([] : List Char).length, ([] : List Char) ++ (ws ++ rest)⟩ : TokenStream) =
      (Except.ok tok, ts₂) := h
  rw [next_skip_ws ws [] rest line hws] at h0
  have h1 : TokenStream.next (⟨line + nlCount ws, ws.length, ws ++ rest⟩ : TokenStream) =
      (Except.ok tok, ts₂) := by
    have hstate : (⟨line + nlCount ws, ([] : List Char).length + ws.length,
        ([] : List Char) ++ (ws ++ rest)⟩ : TokenStream) =
        (⟨line + nlCount ws, ws.length, ws ++ rest⟩ : TokenStream) := by
      simp
    rw [hstate] at h0
    exact h0
  cases hrest : rest with
  | nil =>
    subst hrest
    have heos : ((⟨line + nlCount ws, ws.length,
        ws ++ ([] : List Char)⟩ : TokenStream)).end_of_stream = true := by
      simp [TokenStream.end_of_stream]
    rw [TokenStream.next.eq_def, dif_pos heos] at h1
    exact absurd h1 (by simp)
  | cons r rrest =>
    subst hrest
    have hlt : ws.length < (ws ++ r :: rrest).length := by simp
    have hchar : ((⟨line + nlCount ws, ws.length,
        ws ++ r :: rrest⟩ : TokenStream)).char_at_pointer = r := by
      show (ws ++ r :: rrest).getD ws.length default = r
      rw [List.getD_append_right _ _ _ _ (Nat.le_refl _)]
      simp
    have hnws : isWsChar (((⟨line + nlCount ws, ws.length,
        ws ++ r :: rrest⟩ : TokenStream)).char_at_pointer) = false := by
      rw [hchar]
      simpa using hr
    exact TokenStream.next_ok_line_eq_nonws _ _ _ hlt hnws h1

theorem claim_C4_witness :
    (∀ c ∈ (['\n', '\t'] : List Char), isWsChar c = true) ∧
      isWsChar ((['n', 'u', 'l', 'l'] : List Char).headD default) = false ∧
      (Token.mk TokenKind.Null 3).line = 1 + nlCount ['\n', '\t'] := by
  refine ⟨by decide, by decide, ?_⟩
  have heval : TokenStream.next
      (⟨1, 0, (['\n', '\t'] : List Char) ++ ['n', 'u', 'l', 'l']⟩ : TokenStream) =
      (Except.ok (Token.mk TokenKind.Null 3),
       (⟨3, 6, ['\n', '\t', 'n', 'u', 'l', 'l']⟩ : TokenStream)) := by
    simp [TokenStream.next.eq_def, TokenStream.end_of_stream, TokenStream.char_at_pointer,
      TokenStream.single_token, TokenStream.tokenize_string, TokenStream.string_scan.eq_def,
      TokenStream.tokenize_number, TokenStream.tokenize_literal, TokenStream.run_end.eq_def,
      TokenStream.parse_f64, TokenStream.natOfDigits]
  exact claim_C4 1 ['\n', '\t'] ['n', 'u', 'l', 'l'] _ _ (by decide) (by decide) heval

/-- C4 counterexample to the claim as stated: in the source `"\t" null` the
`Null` token is preceded by exactly one tab character (inside the string
lexeme), so the claim predicts line `1 + 1 = 2`, but the scanner reports
line `1` — a tab inside a string lexeme does not increment the line
counter. -/
theorem claim_C4_cex :
    (TokenStream.next ((TokenStream.next (TokenStream.new
        ['"', '\t', '"', ' ', 'n', 'u', 'l', 'l'])).2)).1 =
      Except.ok { kind := TokenKind.Null, line := 1 } ∧
    nlCount ((['"', '\t', '"', ' ', 'n', 'u', 'l', 'l'] : List Char).take 4) = 1 ∧
    (1 : Nat) ≠ 1 + 1 := by
  refine ⟨?_, by decide, by decide⟩
  simp [TokenStream.new, TokenStream.next.eq_def, TokenStream.end_of_stream,
    TokenStream.char_at_pointer, TokenStream.single_token, TokenStream.tokenize_string,
    TokenStream.string_scan.eq_def, TokenStream.tokenize_number, TokenStream.tokenize_literal,
    TokenStream.run_end.eq_def, TokenStream.parse_f64, TokenStream.natOfDigits]


theorem claim_C8_witness :
    ((TokenStream.new ['6', '4']).end_of_stream = false) ∧
      (((TokenStream.new ['6', '4']).char_at_pointer).isDigit = true) ∧
      (TokenStream.new ['6', '4']).tokenize_number =
        (Except.ok { kind := TokenKind.Number 64, line := 1 },
         { line := 1, pointer := 2, source := ['6', '4'] }) := by
  refine ⟨by decide, by decide, ?_⟩
  obtain ⟨s, hs1, hs2, hs3, hs4, hs5⟩ :=
    claim_C8 (TokenStream.new ['6', '4']) (by decide) (by decide)
  rw [hs5, hs3]
  simp [TokenStream.new, TokenStream.run_end.eq_def, TokenStream.natOfDigits]


/-- C10: the parse entry point on the empty input succeeds with the empty
sequence, but appending one or more trailing whitespace characters to any
successfully parsing input (including the whitespace-only inputs obtained
from the empty one, such as a single space) makes parse return an
`EndOfStream` error instead of the values parsed so far: the loop's
end-of-stream test looks at raw remaining characters, not remaining
tokens. -/
theorem claim_C10 :
    Parser.parse (TokenStream.new []) = Except.ok [] ∧
      ∀ (s ws : List Char) (vs : List Primitive),
        (∀ c ∈ ws, isWsChar c = true) → ws ≠ [] →
        Parser.parse (TokenStream.new s) = Except.ok vs →
        ∃ ln, Parser.parse (TokenStream.new (s ++ ws)) =
          Except.error { line := ln, kind := ParseErrorKind.EndOfStream } := by
  constructor
  · exact Parser.parse_nil _ (by decide)
  · intro s ws vs hws hw0 h
    exact Parser.parse_extend (TokenStream.new s) ws vs hws hw0 (by simp [TokenStream.new]) h

theorem claim_C10_witness :
    (∀ c ∈ ([' '] : List Char), isWsChar c = true) ∧ ([' '] : List Char) ≠ [] ∧
      Parser.parse (TokenStream.new ['3', '5']) = Except.ok [Primitive.Number 35] ∧
      ∃ ln, Parser.parse (TokenStream.new (['3', '5'] ++ [' '])) =
        Except.error { line := ln, kind := ParseErrorKind.EndOfStream } := by
  have hparse : Parser.parse (TokenStream.new ['3', '5']) = Except.ok [Primitive.Number 35] := by
    have e1 : Parser.parse_primitive (TokenStream.new ['3', '5']) =
        Except.ok (Primitive.Number 35, { line := 1, pointer := 2, source := ['3', '5'] }) := by
      simp [TokenStream.new, Parser.parse_primitive, TokenStream.next.eq_def,
        TokenStream.end_of_stream, TokenStream.char_at_pointer, TokenStream.single_token,
        TokenStream.tokenize_number, TokenStream.run_end.eq_def, TokenStream.parse_f64,
        TokenStream.natOfDigits]
    rw [Parser.parse_cons _ _ _ (by decide) e1, Parser.parse_nil _ (by decide)]
    simp [Except.map]
  exact ⟨by decide, by decide, hparse,
    claim_C10.2 ['3', '5'] [' '] [Primitive.Number 35] (by decide) (by decide) hparse⟩

end JsonParser

